import Mathlib

/-!
Verification of the plox tree-walking Lox interpreter against its
specification.  The Python sources under src/plox (tokens.py, scanner.py,
parser.py, interpreter.py, lox.py) are embedded shallowly: IEEE doubles are
modelled by rationals (the claims at issue use only small integral values),
Python object identity for environments and class instances by indices into
an explicit store carried in the interpreter state, raised Python exceptions
by explicit error results, and the unbounded recursion of the scanner, the
parser and the evaluator by a fuel parameter.
-/

namespace Plox

/-- Token kinds, mirroring the enum `TokenType` of src/plox/tokens.py. -/
inductive TokenType where
  | LEFT_PAREN | RIGHT_PAREN | LEFT_BRACE | RIGHT_BRACE
  | COMMA | DOT | MINUS | PLUS | SEMICOLON | SLASH | STAR | QMARK | COLON
  | BANG | BANG_EQUAL | EQUAL | EQUAL_EQUAL
  | GREATER | GREATER_EQUAL | LESSER | LESSER_EQUAL
  | IDENTIFIER | STRING | NUMBER
  | AND | BREAK | CLASS | ELSE | FALSE | FUN | FOR | IF | NIL | OR
  | PRINT | RETURN | SUPER | THIS | TRUE | VAR | WHILE
  | EOF
deriving DecidableEq, Repr

/-- A token's literal payload: Python stores a `str` or a `float` (doubles are
modelled as rationals) in `Token.literal`, or `None`. -/
inductive TokLit where
  | str (s : String)
  | num (q : ℚ)
deriving DecidableEq, Repr

/-- Mirrors class `Token` of src/plox/tokens.py. -/
structure Token where
  token_type : TokenType
  lexeme : String
  literal : Option TokLit
  line : Nat
deriving DecidableEq, Repr

/-- The value stored in an `expr.Literal` node: Python passes `None`, a bool,
a float or a str to the `Literal` constructor in src/plox/parser.py. -/
inductive Lit where
  | nil
  | bool (b : Bool)
  | num (q : ℚ)
  | str (s : String)
deriving DecidableEq, Repr

/-- The expression syntax tree, mirroring the classes of src/plox/expr.py
(one constructor per subclass of `Expr`, with the same fields). -/
inductive Expr where
  | Assign (name : Token) (value : Expr)
  | Binary (left : Expr) (operator : Token) (right : Expr)
  | Call (callee : Expr) (paren : Token) (arguments : List Expr)
  | Get (item : Expr) (name : Token)
  | Grouping (expression : Expr)
  | Literal (value : Lit)
  | Logical (left : Expr) (operator : Token) (right : Expr)
  | Set (item : Expr) (name : Token) (value : Expr)
  | Super (keyword : Token) (method : Token)
  | This (keyword : Token)
  | Unary (operator : Token) (right : Expr)
  | Variable (name : Token)
  | Comma (left : Expr) (right : Expr)
  | Conditional (condition : Expr) (then_expression : Expr) (else_expression : Expr)

/-- The statement syntax tree, mirroring src/plox/stmt.py.  The parser's
`declaration` returns `None` after an error and lists of statements keep
those entries, so statement lists are lists of `Option Stmt`.  A class's
method list holds the fields of `stmt.Function` nodes (name, params, body). -/
inductive Stmt where
  | Block (statements : List (Option Stmt))
  | Class (name : Token) (superclass : Option Expr)
      (methods : List (Token × List Token × List (Option Stmt)))
  | Expression (expression : Expr)
  | Function (name : Token) (params : List Token) (body : List (Option Stmt))
  | If (condition : Expr) (then_branch : Stmt) (else_branch : Option Stmt)
  | Print (expression : Expr)
  | Return (keyword : Token) (value : Option Expr)
  | Break (keyword : Token)
  | While (condition : Expr) (body : Stmt)
  | Var (vars : List (Token × Option Expr))

/-- The declaration data of a `LoxFunction` runtime value
(src/plox/interpreter.py, class `LoxFunction`): the `stmt.Function` fields
plus the captured closure (an environment address) and the initializer
flag. -/
structure FuncData where
  name : Token
  params : List Token
  body : List (Option Stmt)
  closure : Nat
  is_initializer : Bool

/-- Mirrors class `LoxClass`: name, optional superclass, method table. -/
inductive ClassVal where
  | mk (name : String) (superclass : Option ClassVal)
      (methods : List (String × FuncData))

def ClassVal.name : ClassVal → String
  | .mk n _ _ => n

def ClassVal.superclass : ClassVal → Option ClassVal
  | .mk _ s _ => s

def ClassVal.methods : ClassVal → List (String × FuncData)
  | .mk _ _ m => m

/-- Runtime values.  `inst` is a class instance, referenced by its index in
the object store (Python object identity).  `native` is the single built-in
`clock` callable.  `exprNode` is a raw AST object leaking into the value
world, which is what `Interpreter.visit_grouping_expr` returns. -/
inductive Value where
  | nil
  | bool (b : Bool)
  | num (q : ℚ)
  | str (s : String)
  | function (f : FuncData)
  | cls (c : ClassVal)
  | inst (addr : Nat)
  | native
  | exprNode (e : Expr)

/-- One environment: a name-to-value table plus the enclosing environment's
address (mirrors class `Environment` of src/plox/interpreter.py; the table is
an insertion-ordered association list like a Python dict). -/
structure Frame where
  values : List (String × Value)
  enclosing : Option Nat

/-- One class instance: its class and its field table (class `LoxInstance`). -/
structure Obj where
  cls : ClassVal
  fields : List (String × Value)

/-- Exceptions and non-local control flow raised while interpreting: the
`Return` and `Break` signals, `LoxRuntimeError`, and any other uncaught
Python exception (IndexError, KeyError, TypeError, AssertionError,
AttributeError, ...) identified by its Python class name. -/
inductive Signal where
  | ret (value : Value)
  | brk
  | rte (token : Token) (message : String)
  | pyexc (name : String)

/-- The state of class `Interpreter`: the environment store (`frames`), the
instance store (`objects`), the `global_env` / `env` / `local_env`
attributes, the text printed to standard output so far, the
`had_runtime_error` flag of src/plox/lox.py, and the wall-clock reading used
by the `clock` native. -/
structure InterpState where
  frames : List Frame
  objects : List Obj
  global_env : Nat
  env : Nat
  local_env : Expr → Option Nat
  output : List String
  had_runtime_error : Bool
  time : ℚ

/-- Ordered-dict lookup. -/
def assocGet (l : List (String × Value)) (k : String) : Option Value :=
  (l.find? (fun p => p.1 == k)).map (fun p => p.2)

/-- Ordered-dict update: replace in place or append, like a Python dict. -/
def assocSet (l : List (String × Value)) (k : String) (v : Value) :
    List (String × Value) :=
  match l with
  | [] => [(k, v)]
  | (k', v') :: rest =>
      if k' == k then (k, v) :: rest else (k', v') :: assocSet rest k v

def getFrame (st : InterpState) (a : Nat) : Frame :=
  st.frames.getD a ⟨[], none⟩

def setFrame (st : InterpState) (a : Nat) (fr : Frame) : InterpState :=
  { st with frames := st.frames.set a fr }

def getObj (st : InterpState) (a : Nat) : Obj :=
  st.objects.getD a ⟨.mk "" none [], []⟩

/-- `Environment.define`: insert into the table of environment `a`. -/
def define (st : InterpState) (a : Nat) (name : String) (v : Value) :
    InterpState :=
  setFrame st a { getFrame st a with
    values := assocSet (getFrame st a).values name v }

/-- `Environment.ancestor`: follow `enclosing` exactly `distance` times.
Python would hit `AttributeError` on `None.enclosing`; the model reports the
same exception as soon as the chain runs out. -/
def ancestor (st : InterpState) (a : Nat) : Nat → Except String Nat
  | 0 => .ok a
  | d + 1 =>
      match (getFrame st a).enclosing with
      | some a' => ancestor st a' d
      | none => .error "AttributeError"

/-- `Environment.get_at`: table lookup in the `distance`-th ancestor; a
missing key is Python's `KeyError`. -/
def get_at (st : InterpState) (a distance : Nat) (name : String) :
    Except String Value := do
  let a' ← ancestor st a distance
  match assocGet (getFrame st a').values name with
  | some v => .ok v
  | none => .error "KeyError"

/-- `Environment.assign_at`: table store in the `distance`-th ancestor. -/
def assign_at (st : InterpState) (a distance : Nat) (name : Token)
    (v : Value) : Except String InterpState :=
  (ancestor st a distance).map (fun a' => define st a' name.lexeme v)

/-- `Environment.get`: walk the enclosing chain; an absent name is a
`LoxRuntimeError`.  The chain walk is fueled (call it with the store size:
environment chains never cycle, so that fuel always suffices). -/
def envGet (st : InterpState) : Nat → Nat → Token → Except Signal Value
  | 0, _, _ => .error (.pyexc "RecursionError")
  | fuel + 1, a, name =>
      match assocGet (getFrame st a).values name.lexeme with
      | some v => .ok v
      | none =>
          match (getFrame st a).enclosing with
          | some a' => envGet st fuel a' name
          | none =>
              .error (.rte name ("undefined variable '" ++ name.lexeme ++ "'"))

/-- `Environment.assign`: walk the enclosing chain and update the first
table holding the name; an absent name is a `LoxRuntimeError`. -/
def envAssign (st : InterpState) :
    Nat → Nat → Token → Value → Except Signal InterpState
  | 0, _, _, _ => .error (.pyexc "RecursionError")
  | fuel + 1, a, name, v =>
      if (assocGet (getFrame st a).values name.lexeme).isSome then
        .ok (define st a name.lexeme v)
      else
        match (getFrame st a).enclosing with
        | some a' => envAssign st fuel a' name v
        | none =>
            .error (.rte name ("undefined variable '" ++ name.lexeme ++ "'"))

/-- Python's truth value of a runtime object: `None`, `False`, `0.0` and
`""` are falsy, every other object the interpreter handles is truthy. -/
def pyTruthy (v : Value) : Bool :=
  match v with
  | .nil => false
  | .bool b => b
  | .num q => decide (q ≠ 0)
  | .str s => decide (s ≠ "")
  | _ => true

/-- Mirrors `Interpreter.is_truthy`: `if not item: return False` (Python
falsiness, which also catches `0` and `""`), `elif isinstance(item, bool):
return bool(item)`, else `return True`. -/
def is_truthy (item : Value) : Bool :=
  if !pyTruthy item then false
  else
    match item with
    | .bool b => b
    | _ => true

/-- Python `a == b` on runtime values as used by `Interpreter.is_equal`:
numbers compare numerically, strings by content, bools by value, a bool and
a number numerically (Python bools are ints), instances by identity (their
store address).  Function, class, native and AST-node objects compare by
identity in Python; distinct such objects are unequal, which is the `false`
of the final case (the model has no other way to hold two references to one
such object). -/
def pyEq (a b : Value) : Bool :=
  match a, b with
  | .num x, .num y => decide (x = y)
  | .str x, .str y => x == y
  | .bool x, .bool y => x == y
  | .bool x, .num y => decide ((if x then (1 : ℚ) else 0) = y)
  | .num x, .bool y => decide (x = if y then (1 : ℚ) else 0)
  | .inst x, .inst y => x == y
  | _, _ => false

/-- Mirrors `Interpreter.is_equal` (dead code in the source: no caller). -/
def is_equal (a b : Value) : Bool :=
  match a, b with
  | .nil, .nil => true
  | .nil, _ => false
  | _, _ => pyEq a b

/-- Python `str(float)` for an integral value, after `Interpreter.stringify`
strips the trailing `.0`.  Non-integral rationals fall back to the exact
fraction (Python would print the decimal float form; the claims under proof
print integral values only). -/
def ratStr (q : ℚ) : String :=
  if q.den = 1 then toString q.num else toString q

/-- Mirrors `Interpreter.stringify`.  Note the source reaches `str(item)`
for booleans, printing Python's `True` / `False`.  An AST node leaked by
`visit_grouping_expr` prints as an opaque Python object (its `str` embeds a
memory address; the model uses a fixed placeholder). -/
def stringify (st : InterpState) (item : Value) : String :=
  match item with
  | .nil => "nil"
  | .num q => ratStr q
  | .bool b => if b then "True" else "False"
  | .str s => s
  | .function f => "<fn " ++ f.name.lexeme ++ ">"
  | .cls c => c.name
  | .inst a => (getObj st a).cls.name ++ " instance"
  | .native => "<native fn>"
  | .exprNode _ => "<Expr object>"

/-- The functions from Python's `operator` module that
`Interpreter.visit_binary_expr` passes to `perform_operation`. -/
inductive PyOperator where
  | gt | ge | lt | ne | eq | sub | truediv | mul | add
deriving DecidableEq, Repr

/-- Mirrors the `OperandType` flag enum of src/plox/interpreter.py
(`NUMBER = 1`, `STRING = 2`, combinations allowed). -/
structure OperandType where
  number : Bool
  string : Bool
deriving DecidableEq, Repr

def OperandType.NUMBER : OperandType := ⟨true, false⟩

def OperandType.STRING : OperandType := ⟨false, true⟩

/-- The default argument `OperandType.NUMBER | OperandType.STRING`. -/
def OperandType.both : OperandType := ⟨true, true⟩

/-- Applying one of the `operator`-module functions to two floats.  Only
`truediv` can raise: Python float division by zero is `ZeroDivisionError`,
the `.error` case here. -/
def applyNum (op : PyOperator) (l r : ℚ) : Except Unit Value :=
  match op with
  | .gt => .ok (.bool (decide (r < l)))
  | .ge => .ok (.bool (decide (r ≤ l)))
  | .lt => .ok (.bool (decide (l < r)))
  | .ne => .ok (.bool (decide (l ≠ r)))
  | .eq => .ok (.bool (decide (l = r)))
  | .sub => .ok (.num (l - r))
  | .truediv => if r = 0 then .error () else .ok (.num (l / r))
  | .mul => .ok (.num (l * r))
  | .add => .ok (.num (l + r))

/-- Applying one of the `operator`-module functions to two strings
(lexicographic comparison by code point, as in Python).  `sub`, `truediv`
and `mul` would be a Python `TypeError` (`none` here); `visit_binary_expr`
only ever passes those with a number-only operand type, so that case is
unreachable from the interpreter. -/
def applyStr (op : PyOperator) (l r : String) : Option Value :=
  match op with
  | .gt => some (.bool (compare l r == .gt))
  | .ge => some (.bool (compare l r != .lt))
  | .lt => some (.bool (compare l r == .lt))
  | .ne => some (.bool (l != r))
  | .eq => some (.bool (l == r))
  | .add => some (.str (l ++ r))
  | .sub | .truediv | .mul => none

/-- The value-level core of `Interpreter.perform_operation`, after the two
operands have been evaluated (the evaluation itself happens in the caller,
see `perform_operation` in the mutual block below, preserving the source's
left-then-right order).  Mirrors the `isinstance` dispatch: Python bools are
not floats, so only genuine numbers take the number branch; then the error
message is chosen from the operand type exactly as in the source, and the
initial `assert operand_type != 0` is the AssertionError case. -/
def perform_operation_values (op : PyOperator) (operand_type : OperandType)
    (l r : Value) (operator_token : Token) : Except Signal Value :=
  if !operand_type.number && !operand_type.string then
    .error (.pyexc "AssertionError")
  else
    match operand_type.number, l, r with
    | true, .num a, .num b =>
        match applyNum op a b with
        | .ok v => .ok v
        | .error () => .error (.pyexc "ZeroDivisionError")
    | _, _, _ =>
        match operand_type.string, l, r with
        | true, .str a, .str b =>
            match applyStr op a b with
            | some v => .ok v
            | none => .error (.pyexc "TypeError")
        | _, _, _ =>
            let errmsg :=
              if operand_type.number && operand_type.string then
                "operands must be either both numbers or both strings"
              else if !operand_type.string then
                "operands must both be numbers"
              else
                "operands must both be strings"
            .error (.rte operator_token errmsg)

/-- `LoxClass.find_method`: the class's own table first, then the
superclass chain. -/
def find_method (c : ClassVal) (name : String) : Option FuncData :=
  match c with
  | .mk _ sup methods =>
      match (methods.find? (fun p => p.1 == name)).map (fun p => p.2) with
      | some m => some m
      | none =>
          match sup with
          | some s => find_method s name
          | none => none

/-- `LoxFunction.bind`: a fresh environment enclosing the original closure,
defining `this` as the instance; the bound method closes over it. -/
def bindFn (st : InterpState) (f : FuncData) (instAddr : Nat) :
    FuncData × InterpState :=
  let a := st.frames.length
  ({ f with closure := a },
   { st with frames :=
      st.frames ++ [⟨[("this", .inst instAddr)], some f.closure⟩] })

/-- Arity of a callable (`LoxFunction.arity`, `LoxClass.arity`, and the
`clock` native's `arity`). -/
def arityOf (v : Value) : Nat :=
  match v with
  | .function f => f.params.length
  | .cls c =>
      match find_method c "init" with
      | some init => init.params.length
      | none => 0
  | _ => 0

/-- Whether `isinstance(callee, LoxCallable)` holds: `LoxFunction`,
`LoxClass` and the anonymous `Clock` class are the `LoxCallable`
subclasses. -/
def isCallable (v : Value) : Bool :=
  match v with
  | .function _ => true
  | .cls _ => true
  | .native => true
  | _ => false

/-- `Interpreter.look_up_variable`: use the resolved distance when the
resolver recorded one, else fall back to the global environment. -/
def look_up_variable (st : InterpState) (name : Token) (expression : Expr) :
    Except Signal Value :=
  match st.local_env expression with
  | some distance =>
      match get_at st st.env distance name.lexeme with
      | .ok v => .ok v
      | .error e => .error (.pyexc e)
  | none => envGet st st.frames.length st.global_env name

/-- Results of running a piece of the interpreter: out of fuel, a raised
signal (with the state at the raise), or a normal result and state. -/
inductive ERes (α : Type) where
  | fuelOut
  | thrown (sig : Signal) (st : InterpState)
  | ok (a : α) (st : InterpState)

/-- Sequencing for `ERes`: thrown signals and fuel exhaustion propagate. -/
def bindE {α β : Type} (r : ERes α) (k : α → InterpState → ERes β) : ERes β :=
  match r with
  | .fuelOut => .fuelOut
  | .thrown s st => .thrown s st
  | .ok a st => k a st

mutual

/-- `Interpreter.evaluate` together with the `visit_*_expr` methods (the
visitor dispatch is the match on the node).  Every recursive call spends one
unit of fuel. -/
def evaluate : Nat → Expr → InterpState → ERes Value
  | 0, _, _ => .fuelOut
  | fuel + 1, e, st =>
      match e with
      | .Assign name value =>
          -- visit_assign_expr
          bindE (evaluate fuel value st) fun v st1 =>
            match st1.local_env (Expr.Assign name value) with
            | some distance =>
                match assign_at st1 st1.env distance name v with
                | .ok st2 => .ok v st2
                | .error exc => .thrown (.pyexc exc) st1
            | none =>
                match envAssign st1 st1.frames.length st1.global_env name v with
                | .ok st2 => .ok v st2
                | .error sig => .thrown sig st1
      | .Binary left operator right =>
          -- visit_binary_expr
          match operator.token_type with
          | .GREATER => perform_operation fuel .gt left operator right .both st
          | .GREATER_EQUAL => perform_operation fuel .ge left operator right .both st
          | .LESSER => perform_operation fuel .lt left operator right .both st
          | .LESSER_EQUAL =>
              -- the source maps LESSER_EQUAL to operator.lt as well
              perform_operation fuel .lt left operator right .both st
          | .BANG_EQUAL => perform_operation fuel .ne left operator right .both st
          | .EQUAL_EQUAL => perform_operation fuel .eq left operator right .both st
          | .MINUS => perform_operation fuel .sub left operator right .NUMBER st
          | .SLASH =>
              -- try/except ZeroDivisionError around the division
              match perform_operation fuel .truediv left operator right .NUMBER st with
              | .thrown (.pyexc "ZeroDivisionError") st1 =>
                  .thrown (.rte operator "cannot divide by zero") st1
              | r => r
          | .STAR => perform_operation fuel .mul left operator right .NUMBER st
          | .PLUS => perform_operation fuel .add left operator right .both st
          | _ => .thrown (.pyexc "AssertionError") st
      | .Call callee paren arguments =>
          -- visit_call_expr
          bindE (evaluate fuel callee st) fun calleeV st1 =>
          bindE (evalArgs fuel arguments st1) fun args st2 =>
            if !isCallable calleeV then
              .thrown (.rte paren "can only call functions and classes") st2
            else if args.length ≠ arityOf calleeV then
              .thrown (.rte paren ("expected " ++ toString (arityOf calleeV)
                ++ " arguments, but got " ++ toString args.length)) st2
            else
              callCallable fuel calleeV args st2
      | .Get item name =>
          -- visit_get_expr
          bindE (evaluate fuel item st) fun itemV st1 =>
            match itemV with
            | .inst a =>
                match assocGet (getObj st1 a).fields name.lexeme with
                | some v => .ok v st1
                | none =>
                    match find_method (getObj st1 a).cls name.lexeme with
                    | some m =>
                        let p := bindFn st1 m a
                        .ok (.function p.1) p.2
                    | none =>
                        .thrown (.rte name
                          ("undefined property '" ++ name.lexeme ++ "'")) st1
            | _ => .thrown (.rte name "only instances have properties") st1
      | .Grouping expression =>
          -- visit_grouping_expr returns the inner AST node, unevaluated
          .ok (.exprNode expression) st
      | .Literal value =>
          -- visit_literal_expr
          .ok (match value with
               | .nil => .nil
               | .bool b => .bool b
               | .num q => .num q
               | .str s => .str s) st
      | .Logical left operator right =>
          -- visit_logical_expr
          bindE (evaluate fuel left st) fun l st1 =>
            if operator.token_type = .OR then
              if is_truthy l then .ok l st1 else evaluate fuel right st1
            else
              if !is_truthy l then .ok l st1 else evaluate fuel right st1
      | .Set item name value =>
          -- visit_set_expr
          bindE (evaluate fuel item st) fun itemV st1 =>
            match itemV with
            | .inst a =>
                bindE (evaluate fuel value st1) fun v st2 =>
                  let obj := { getObj st2 a with
                    fields := assocSet (getObj st2 a).fields name.lexeme v }
                  .ok v { st2 with objects := st2.objects.set a obj }
            | _ => .thrown (.rte name "only instances have fields") st1
      | .Super keyword method =>
          -- visit_super_expr
          match st.local_env (Expr.Super keyword method) with
          | none => .thrown (.pyexc "KeyError") st
          | some distance =>
              match get_at st st.env distance "super" with
              | .error exc => .thrown (.pyexc exc) st
              | .ok superclassV =>
                  match superclassV with
                  | .cls c =>
                      match get_at st st.env (distance - 1) "this" with
                      | .error exc => .thrown (.pyexc exc) st
                      | .ok itemV =>
                          match itemV with
                          | .inst a =>
                              match find_method c method.lexeme with
                              | none =>
                                  .thrown (.rte method ("undefined property '"
                                    ++ method.lexeme ++ "'")) st
                              | some m =>
                                  let p := bindFn st m a
                                  .ok (.function p.1) p.2
                          | _ => .thrown (.pyexc "AssertionError") st
                  | _ => .thrown (.pyexc "AssertionError") st
      | .This keyword =>
          -- visit_this_expr
          match look_up_variable st keyword (Expr.This keyword) with
          | .ok v => .ok v st
          | .error sig => .thrown sig st
      | .Unary operator right =>
          -- visit_unary_expr
          bindE (evaluate fuel right st) fun r st1 =>
            match operator.token_type with
            | .MINUS =>
                match r with
                | .num q => .ok (.num (-q)) st1
                | _ => .thrown (.rte operator "operand must be a number") st1
            | .BANG => .ok (.bool (!is_truthy r)) st1
            | _ => .thrown (.pyexc "AssertionError") st1
      | .Variable name =>
          -- visit_variable_expr
          match look_up_variable st name (Expr.Variable name) with
          | .ok v => .ok v st
          | .error sig => .thrown sig st
      | .Comma left right =>
          -- visit_comma_expr
          bindE (evaluate fuel left st) fun _ st1 => evaluate fuel right st1
      | .Conditional condition then_expression else_expression =>
          -- visit_conditional_expr
          bindE (evaluate fuel condition st) fun c st1 =>
            if is_truthy c then evaluate fuel then_expression st1
            else evaluate fuel else_expression st1

termination_by structural fuel _ _ => fuel

/-- `Interpreter.perform_operation`: evaluate the left operand, then the
right, then dispatch on the operand types (`perform_operation_values`). -/
def perform_operation : Nat → PyOperator → Expr → Token → Expr →
    OperandType → InterpState → ERes Value
  | 0, _, _, _, _, _, _ => .fuelOut
  | fuel + 1, op, left, operator_token, right, operand_type, st =>
      bindE (evaluate fuel left st) fun l st1 =>
      bindE (evaluate fuel right st1) fun r st2 =>
        match perform_operation_values op operand_type l r operator_token with
        | .ok v => .ok v st2
        | .error sig => .thrown sig st2

termination_by structural fuel _ _ _ _ _ _ => fuel

/-- Left-to-right evaluation of a call's argument list. -/
def evalArgs (fuel : Nat) (args : List Expr) (st : InterpState) :
    ERes (List Value) :=
  match args, fuel with
  | [], _ => .ok [] st
  | _ :: _, 0 => .fuelOut
  | e :: rest, fuel + 1 =>
      bindE (evaluate fuel e st) fun v st1 =>
      bindE (evalArgs fuel rest st1) fun vs st2 => .ok (v :: vs) st2

termination_by structural fuel

/-- Dispatching a call to a callable value: `LoxFunction.call`,
`LoxClass.call` or the `clock` native (the non-callable case is unreachable
behind the `isCallable` check). -/
def callCallable : Nat → Value → List Value → InterpState → ERes Value
  | 0, _, _, _ => .fuelOut
  | fuel + 1, calleeV, args, st =>
      match calleeV with
      | .function f => loxFunctionCall fuel f args st
      | .cls c => loxClassCall fuel c args st
      | .native => .ok (.num (st.time / 1000)) st
      | _ => .thrown (.pyexc "TypeError") st

termination_by structural fuel _ _ _ => fuel

/-- `LoxFunction.call`: a fresh environment enclosing the closure, the
parameters bound to the arguments, then `execute_block` on the body; a
`Return` signal is caught here, and an initializer always yields the `this`
of its closure. -/
def loxFunctionCall : Nat → FuncData → List Value → InterpState → ERes Value
  | 0, _, _, _ => .fuelOut
  | fuel + 1, f, args, st =>
      let a := st.frames.length
      let st1 := { st with frames := st.frames ++ [⟨[], some f.closure⟩] }
      let st2 := (f.params.zip args).foldl
        (fun s p => define s a p.1.lexeme p.2) st1
      match execute_block fuel f.body a st2 with
      | .fuelOut => .fuelOut
      | .thrown (.ret v) st3 =>
          if f.is_initializer then
            match get_at st3 f.closure 0 "this" with
            | .ok thisV => .ok thisV st3
            | .error exc => .thrown (.pyexc exc) st3
          else .ok v st3
      | .thrown s st3 => .thrown s st3
      | .ok _ st3 =>
          if f.is_initializer then
            match get_at st3 f.closure 0 "this" with
            | .ok thisV => .ok thisV st3
            | .error exc => .thrown (.pyexc exc) st3
          else .ok .nil st3

termination_by structural fuel _ _ _ => fuel

/-- `LoxClass.call`: allocate the instance, call a bound `init` when the
class has one, and return the instance. -/
def loxClassCall : Nat → ClassVal → List Value → InterpState → ERes Value
  | 0, _, _, _ => .fuelOut
  | fuel + 1, c, args, st =>
      let addr := st.objects.length
      let st1 := { st with objects := st.objects ++ [⟨c, []⟩] }
      match find_method c "init" with
      | some init =>
          let p := bindFn st1 init addr
          bindE (loxFunctionCall fuel p.1 args p.2) fun _ st2 =>
            .ok (.inst addr) st2
      | none => .ok (.inst addr) st1

termination_by structural fuel _ _ _ => fuel

/-- `Interpreter.execute` together with the `visit_*_stmt` methods. -/
def execute : Nat → Stmt → InterpState → ERes Unit
  | 0, _, _ => .fuelOut
  | fuel + 1, s, st =>
      match s with
      | .Block statements =>
          -- visit_block_stmt: a fresh environment enclosing the current one
          let a := st.frames.length
          execute_block fuel statements a
            { st with frames := st.frames ++ [⟨[], some st.env⟩] }
      | .Class name superclass methods =>
          execClass fuel name superclass methods st
      | .Expression expression =>
          bindE (evaluate fuel expression st) fun _ st1 => .ok () st1
      | .Function name params body =>
          -- visit_function_stmt: the closure is the current environment
          .ok () (define st st.env name.lexeme
            (.function ⟨name, params, body, st.env, false⟩))
      | .If condition then_branch else_branch =>
          bindE (evaluate fuel condition st) fun c st1 =>
            if is_truthy c then execute fuel then_branch st1
            else
              match else_branch with
              | some e => execute fuel e st1
              | none => .ok () st1
      | .Print expression =>
          bindE (evaluate fuel expression st) fun v st1 =>
            .ok () { st1 with output := st1.output ++ [stringify st1 v] }
      | .Return _ value =>
          match value with
          | some e =>
              bindE (evaluate fuel e st) fun v st1 => .thrown (.ret v) st1
          | none => .thrown (.ret .nil) st
      | .Break _ => .thrown .brk st
      | .While condition body => execWhile fuel condition body st
      | .Var vars => execVarDecls fuel vars st

termination_by structural fuel _ _ => fuel

/-- `Interpreter.visit_class_stmt`. -/
def execClass : Nat → Token → Option Expr →
    List (Token × List Token × List (Option Stmt)) → InterpState → ERes Unit
  | 0, _, _, _, _ => .fuelOut
  | fuel + 1, name, superclass, methods, st =>
      bindE
        (match superclass with
         | some sce =>
             bindE (evaluate fuel sce st) fun sv st1 =>
               match sv with
               | .cls c => .ok (some c) st1
               | _ =>
                   match sce with
                   | .Variable n =>
                       .thrown (.rte n "superclass must be a class") st1
                   | _ => .thrown (.pyexc "AttributeError") st1
         | none => .ok none st)
        fun sc st1 =>
      let st2 := define st1 st1.env name.lexeme .nil
      let st3 :=
        if superclass.isSome then
          { st2 with
            frames := st2.frames ++
              [⟨[("super", match sc with
                           | some c => Value.cls c
                           | none => Value.nil)], some st2.env⟩],
            env := st2.frames.length }
        else st2
      let methodTable := methods.foldl
        (fun table m =>
          let mname := m.1
          (mname.lexeme, FuncData.mk mname m.2.1 m.2.2 st3.env
            (mname.lexeme == "init")) :: table.filter
              (fun p => p.1 != mname.lexeme)) []
      let clsV := ClassVal.mk name.lexeme sc methodTable
      match (if superclass.isSome then
               match (getFrame st3 st3.env).enclosing with
               | some a => Except.ok { st3 with env := a }
               | none => Except.error (Signal.pyexc "AttributeError")
             else Except.ok st3 : Except Signal InterpState) with
      | .error sig => .thrown sig st3
      | .ok st4 =>
          match envAssign st4 st4.frames.length st4.env name (.cls clsV) with
          | .ok st5 => .ok () st5
          | .error sig => .thrown sig st4

termination_by structural fuel _ _ _ _ => fuel

/-- The loop of `Interpreter.visit_while_stmt`, catching `Break`. -/
def execWhile : Nat → Expr → Stmt → InterpState → ERes Unit
  | 0, _, _, _ => .fuelOut
  | fuel + 1, condition, body, st =>
      bindE (evaluate fuel condition st) fun c st1 =>
        if is_truthy c then
          match execute fuel body st1 with
          | .fuelOut => .fuelOut
          | .thrown .brk st2 => .ok () st2
          | .thrown s st2 => .thrown s st2
          | .ok _ st2 => execWhile fuel condition body st2
        else .ok () st1

termination_by structural fuel _ _ _ => fuel

/-- The loop of `Interpreter.visit_var_stmt`: each declared variable's
initializer (or `nil`) is evaluated and defined in the current
environment. -/
def execVarDecls (fuel : Nat) (vars : List (Token × Option Expr))
    (st : InterpState) : ERes Unit :=
  match vars, fuel with
  | [], _ => .ok () st
  | _ :: _, 0 => .fuelOut
  | (name, init) :: rest, fuel + 1 =>
      bindE
        (match init with
         | some e => evaluate fuel e st
         | none => .ok Value.nil st)
        fun v st1 =>
      execVarDecls fuel rest (define st1 st1.env name.lexeme v)

termination_by structural fuel

/-- The statement loop inside `Interpreter.execute_block`: `None` entries
are skipped by the `if statement:` test. -/
def executeStmts (fuel : Nat) (statements : List (Option Stmt))
    (st : InterpState) : ERes Unit :=
  match statements, fuel with
  | [], _ => .ok () st
  | _ :: _, 0 => .fuelOut
  | s :: rest, fuel + 1 =>
      match s with
      | some stmt =>
          bindE (execute fuel stmt st) fun _ st1 => executeStmts fuel rest st1
      | none => executeStmts fuel rest st

termination_by structural fuel

/-- `Interpreter.execute_block`: switch `self.env` to `env`, run the
statements, and restore the previous environment in a `finally`, on normal
completion and on any raised signal alike.  (The method itself is not
recursive; it spends one fuel unit here only so that the whole mutual block
recurses structurally on fuel.) -/
def execute_block : Nat → List (Option Stmt) → Nat → InterpState → ERes Unit
  | 0, _, _, _ => .fuelOut
  | fuel + 1, statements, env, st =>
      match executeStmts fuel statements { st with env := env } with
      | .fuelOut => .fuelOut
      | .thrown s st' => .thrown s { st' with env := st.env }
      | .ok a st' => .ok a { st' with env := st.env }
termination_by structural fuel _ _ _ => fuel

end

/-- `lox.runtime_error`: print the error (Python's `print` goes to standard
output here) and set the runtime-error flag. -/
def lox_runtime_error (st : InterpState) (token : Token) (message : String) :
    InterpState :=
  { st with
    output := st.output ++ ["[line " ++ toString token.line ++ "] " ++ message],
    had_runtime_error := true }

/-- The statement loop of `Interpreter.interpret`: in REPL mode a bare
expression statement prints its value; a `None` entry (possible only when a
parse error was recorded) would be Python's `None.accept` AttributeError. -/
def interpretLoop (fuel : Nat) (statements : List (Option Stmt))
    (repl : Bool) (st : InterpState) : ERes Unit :=
  match statements, fuel with
  | [], _ => .ok () st
  | _ :: _, 0 => .fuelOut
  | s :: rest, fuel + 1 =>
      bindE
        (match s with
         | some stmt =>
             match repl, stmt with
             | true, .Expression expression =>
                 bindE (evaluate fuel expression st) fun v st1 =>
                   .ok () { st1 with output := st1.output ++ [stringify st1 v] }
             | _, _ =>
                 bindE (execute fuel stmt st) fun _ st1 => .ok () st1
         | none => .thrown (.pyexc "AttributeError") st)
        fun _ st1 => interpretLoop fuel rest repl st1

/-- `Interpreter.interpret`: run the statements, catching a
`LoxRuntimeError` at the top by recording it through `lox.runtime_error`. -/
def interpret (fuel : Nat) (statements : List (Option Stmt)) (repl : Bool)
    (st : InterpState) : ERes Unit :=
  match interpretLoop fuel statements repl st with
  | .thrown (.rte token message) st' =>
      .ok () (lox_runtime_error st' token message)
  | r => r

/-- The state built by `Interpreter.__init__`: a single global environment
holding the `clock` native, empty object store, no resolved locals.  The
wall-clock reading that `clock` would divide by 1000 is a parameter. -/
def mkInterpreter (t : ℚ) : InterpState :=
  { frames := [⟨[("clock", .native)], none⟩]
    objects := []
    global_env := 0
    env := 0
    local_env := fun _ => none
    output := []
    had_runtime_error := false
    time := t }

/-! ## Scanner

Embedding of src/plox/scanner.py.  The source string is a list of
characters indexed like a Python `str`; reading past the end, which Python's
`Scanner.advance` does not guard against, is an `IndexError`. -/

/-- The scanner's mutable state (class `Scanner` plus the error lines that
`lox.error` / `lox.report` accumulate, formatted as printed). -/
structure SState where
  source : List Char
  tokens : List Token
  start : Nat
  current : Nat
  line : Nat
  errs : List String

/-- `lox.report` for a plain line number: format the message as
src/plox/lox.py prints it and set the compile-error flag (recorded here by
the message list being nonempty). -/
def scanError (st : SState) (line : Nat) (message : String) : SState :=
  { st with errs := st.errs ++
      ["[line " ++ toString line ++ "] error : " ++ message] }

/-- The keyword table of class `Scanner`. -/
def keywords : List (String × TokenType) :=
  [("and", .AND), ("class", .CLASS), ("else", .ELSE), ("false", .FALSE),
   ("for", .FOR), ("fun", .FUN), ("if", .IF), ("nil", .NIL), ("or", .OR),
   ("print", .PRINT), ("return", .RETURN), ("super", .SUPER),
   ("this", .THIS), ("true", .TRUE), ("var", .VAR), ("while", .WHILE)]

def Scanner.is_at_end (st : SState) : Bool :=
  st.current ≥ st.source.length

/-- `Scanner.advance`: read `source[current]` and step past it.  There is no
bounds check in the source; past the end this is Python's `IndexError`. -/
def Scanner.advance (st : SState) : Except String (Char × SState) :=
  match st.source.get? st.current with
  | some c => .ok (c, { st with current := st.current + 1 })
  | none => .error "IndexError"

/-- `Scanner.match`: consume the next character when it equals `expected`. -/
def Scanner.matchC (st : SState) (expected : Char) : Bool × SState :=
  if Scanner.is_at_end st then (false, st)
  else if st.source.getD st.current expected ≠ expected then (false, st)
  else (true, { st with current := st.current + 1 })

/-- `Scanner.peek`: the current character, or `NUL` at the end. -/
def Scanner.peek (st : SState) : Char :=
  if Scanner.is_at_end st then '\x00' else st.source.getD st.current '\x00'

/-- `Scanner.peek_next`. -/
def Scanner.peek_next (st : SState) : Char :=
  if st.current + 1 ≥ st.source.length then '\x00'
  else st.source.getD (st.current + 1) '\x00'

def Scanner.is_digit (c : Char) : Bool := '0' ≤ c ∧ c ≤ '9'

def Scanner.is_alpha (c : Char) : Bool :=
  ('a' ≤ c ∧ c ≤ 'z') ∨ ('A' ≤ c ∧ c ≤ 'Z') ∨ c = '_'

def Scanner.is_alphanumeric (c : Char) : Bool :=
  Scanner.is_alpha c || Scanner.is_digit c

/-- The slice `source[start:current]` as a string. -/
def Scanner.text (st : SState) : String :=
  String.mk ((st.source.drop st.start).take (st.current - st.start))

/-- `Scanner.add_token`. -/
def Scanner.add_token (st : SState) (token_type : TokenType)
    (literal : Option TokLit := none) : SState :=
  { st with tokens := st.tokens ++
      [⟨token_type, Scanner.text st, literal, st.line⟩] }

/-- The numeric value of `float(source[start:current])` for the digit /
fraction shapes the scanner produces. -/
def parseNumber (cs : List Char) : ℚ :=
  let digits := fun l => l.foldl (fun acc c => acc * 10 + (c.toNat - 48)) 0
  match cs.splitOn '.' with
  | [intPart, fracPart] =>
      (digits intPart : ℚ) +
        (digits fracPart : ℚ) / ((10 : ℚ) ^ fracPart.length)
  | _ => (digits cs : ℚ)

/-- The loop of `Scanner.identifier`. -/
def identLoop : Nat → SState → SState
  | 0, st => st
  | fuel + 1, st =>
      if Scanner.is_alphanumeric (Scanner.peek st) then
        identLoop fuel { st with current := st.current + 1 }
      else st

/-- `Scanner.identifier`: extend over alphanumerics, then the keyword
table decides the token kind. -/
def scanIdentifier (fuel : Nat) (st : SState) : SState :=
  let st1 := identLoop fuel st
  match (keywords.find? (fun p => p.1 == Scanner.text st1)).map Prod.snd with
  | some kw => Scanner.add_token st1 kw
  | none => Scanner.add_token st1 .IDENTIFIER

/-- The digit loops of `Scanner.number`. -/
def digitLoop : Nat → SState → SState
  | 0, st => st
  | fuel + 1, st =>
      if Scanner.is_digit (Scanner.peek st) then
        digitLoop fuel { st with current := st.current + 1 }
      else st

/-- `Scanner.number`: integer part, optional `.` followed by a digit, then
the fractional digits; the token literal is the parsed float. -/
def scanNumber (fuel : Nat) (st : SState) : SState :=
  let st1 := digitLoop fuel st
  let st2 :=
    if Scanner.peek st1 = '.' && Scanner.is_digit (Scanner.peek_next st1) then
      digitLoop fuel { st1 with current := st1.current + 1 }
    else st1
  Scanner.add_token st2 .NUMBER
    (some (.num (parseNumber ((st2.source.drop st2.start).take
      (st2.current - st2.start)))))

/-- The loop of `Scanner.string`: consume up to the closing quote, counting
newlines. -/
def stringLoop : Nat → SState → SState
  | 0, st => st
  | fuel + 1, st =>
      if Scanner.peek st ≠ '"' && !Scanner.is_at_end st then
        let st1 := if Scanner.peek st = '\n' then { st with line := st.line + 1 } else st
        stringLoop fuel { st1 with current := st1.current + 1 }
      else st

/-- `Scanner.string`: an unterminated literal is a compile error; otherwise
the literal value excludes the surrounding quotes. -/
def scanString (fuel : Nat) (st : SState) : SState :=
  let st1 := stringLoop fuel st
  if Scanner.is_at_end st1 then scanError st1 st1.line "unterminated string"
  else
    let st2 := { st1 with current := st1.current + 1 }
    Scanner.add_token st2 .STRING
      (some (.str (String.mk ((st2.source.drop (st2.start + 1)).take
        (st2.current - 1 - (st2.start + 1))))))

/-- The loop skipping a line comment (`//` to end of line). -/
def lineCommentLoop : Nat → SState → SState
  | 0, st => st
  | fuel + 1, st =>
      if Scanner.peek st ≠ '\n' && !Scanner.is_at_end st then
        lineCommentLoop fuel { st with current := st.current + 1 }
      else st

/-- The loop of the nested block comment branch of `Scanner.scan_token`:
`delimiters` counts unmatched openers; hitting the end of the source records
the unterminated-comment error and breaks out. -/
def blockCommentLoop : Nat → Nat → Nat → SState → SState
  | 0, _, _, st => st
  | fuel + 1, delimiters, comment_start, st =>
      if delimiters = 0 then st
      else
        let curr := Scanner.peek st
        let next := Scanner.peek_next st
        if next = '\x00' then
          scanError st comment_start "unterminated block comment"
        else
          let delimiters' :=
            if curr = '/' && next = '*' then delimiters + 1
            else if curr = '*' && next = '/' then delimiters - 1
            else delimiters
          let st1 := if curr = '\n' then { st with line := st.line + 1 } else st
          blockCommentLoop fuel delimiters' comment_start
            { st1 with current := st1.current + 1 }

/-- `Scanner.scan_token`: one dispatch on the character just consumed.
After the block-comment loop the source runs `self.advance()`
unconditionally, which is where an `IndexError` escapes when the loop broke
at the very end of the source.  A raised exception carries the scanner
state at the raise. -/
def scan_token (fuel : Nat) (st : SState) : Except (String × SState) SState := do
  let (c, st) ← match Scanner.advance st with
    | .ok p => Except.ok p
    | .error exc => Except.error (exc, st)
  match c with
  | '(' => .ok (Scanner.add_token st .LEFT_PAREN)
  | ')' => .ok (Scanner.add_token st .RIGHT_PAREN)
  | '{' => .ok (Scanner.add_token st .LEFT_BRACE)
  | '}' => .ok (Scanner.add_token st .RIGHT_BRACE)
  | ',' => .ok (Scanner.add_token st .COMMA)
  | '.' => .ok (Scanner.add_token st .DOT)
  | '-' => .ok (Scanner.add_token st .MINUS)
  | '+' => .ok (Scanner.add_token st .PLUS)
  | ';' => .ok (Scanner.add_token st .SEMICOLON)
  | '*' => .ok (Scanner.add_token st .STAR)
  | '!' =>
      let p := Scanner.matchC st '='
      .ok (Scanner.add_token p.2 (if p.1 then .BANG_EQUAL else .BANG))
  | '=' =>
      let p := Scanner.matchC st '='
      .ok (Scanner.add_token p.2 (if p.1 then .EQUAL_EQUAL else .EQUAL))
  | '<' =>
      let p := Scanner.matchC st '='
      .ok (Scanner.add_token p.2 (if p.1 then .LESSER_EQUAL else .LESSER))
  | '>' =>
      let p := Scanner.matchC st '='
      .ok (Scanner.add_token p.2 (if p.1 then .GREATER_EQUAL else .GREATER))
  | '/' =>
      let p := Scanner.matchC st '/'
      if p.1 then .ok (lineCommentLoop fuel p.2)
      else
        let q := Scanner.matchC st '*'
        if q.1 then
          let st1 := blockCommentLoop fuel 1 q.2.line q.2
          match Scanner.advance st1 with
          | .ok p => .ok p.2
          | .error exc => .error (exc, st1)
        else .ok (Scanner.add_token st .SLASH)
  | ' ' => .ok st
  | '\r' => .ok st
  | '\t' => .ok st
  | '\n' => .ok { st with line := st.line + 1 }
  | '"' => .ok (scanString fuel st)
  | _ =>
      if Scanner.is_digit c then .ok (scanNumber fuel st)
      else if Scanner.is_alpha c then .ok (scanIdentifier fuel st)
      else .ok (scanError st st.line "unexpected character")

/-- The loop of `Scanner.scan_tokens`. -/
def scanLoop : Nat → SState → Except (String × SState) SState
  | 0, st => .ok st
  | fuel + 1, st =>
      if Scanner.is_at_end st then .ok st
      else
        match scan_token fuel { st with start := st.current } with
        | .ok st1 => scanLoop fuel st1
        | .error e => .error e

/-- `Scanner.scan_tokens`: scan to the end, then append the single `EOF`
token.  An escaped Python exception carries the state at the raise. -/
def scan_tokens (fuel : Nat) (source : List Char) :
    Except (String × SState) (List Token × SState) :=
  match scanLoop fuel ⟨source, [], 0, 0, 1, []⟩ with
  | .ok st =>
      let st1 := { st with tokens := st.tokens ++ [⟨.EOF, "", none, st.line⟩] }
      .ok (st1.tokens, st1)
  | .error e => .error e

/-! ## Parser

Embedding of src/plox/parser.py.  The token list is a fixed first argument
of every method; the parser state is the `current` index plus the error
lines recorded through `lox.error`.  A raised `LoxParserError` is the
`raise` result; all recursion is fueled, one unit per call. -/

/-- The parser's mutable state: `Parser.current` and the recorded errors. -/
structure PS where
  i : Nat
  errs : List String
deriving DecidableEq, Repr

/-- The default token (never reached while the invariants of the adequacy
proof hold: the parser stops at the first `EOF`). -/
def eofTok : Token := ⟨.EOF, "", none, 0⟩

def Parser.peek (ts : List Token) (s : PS) : Token :=
  ts.getD s.i eofTok

/-- `Parser.previous`, `tokens[current - 1]`.  (With `current = 0` Python's
negative index would yield the last token; the parser only calls this after
an advance, so the case does not arise.) -/
def Parser.previous (ts : List Token) (s : PS) : Token :=
  ts.getD (s.i - 1) eofTok

def Parser.is_at_end (ts : List Token) (s : PS) : Bool :=
  (Parser.peek ts s).token_type == .EOF

def Parser.check (ts : List Token) (token_type : TokenType) (s : PS) : Bool :=
  if Parser.is_at_end ts s then false
  else (Parser.peek ts s).token_type == token_type

/-- `Parser.advance`: consume the current token unless at the end; return
the token just consumed. -/
def Parser.advanceP (ts : List Token) (s : PS) : Token × PS :=
  if Parser.is_at_end ts s then (Parser.previous ts s, s)
  else
    let s' : PS := { s with i := s.i + 1 }
    (Parser.previous ts s', s')

/-- `Parser.match`: consume the next token when its kind is one of the
given ones. -/
def Parser.matchTs (ts : List Token) (token_types : List TokenType) (s : PS) :
    Bool × PS :=
  if token_types.any (fun tt => Parser.check ts tt s) then
    (true, (Parser.advanceP ts s).2)
  else (false, s)

/-- `lox.error` for a token, as formatted by `lox.report`. -/
def parseError (token : Token) (message : String) (s : PS) : PS :=
  { s with errs := s.errs ++
      [if token.token_type == .EOF then
         "[line " ++ toString token.line ++ "] error at end: " ++ message
       else
         "[line " ++ toString token.line ++ "] error at '" ++ token.lexeme
           ++ "': " ++ message] }

/-- `Parser.consume`: advance past a token of the expected kind, or report
and raise (`Parser.error`). -/
def Parser.consume (ts : List Token) (token_type : TokenType)
    (message : String) (s : PS) : Except PS (Token × PS) :=
  if Parser.check ts token_type s then .ok (Parser.advanceP ts s)
  else .error (parseError (Parser.peek ts s) message s)

/-- A parsing computation's result: out of fuel, a raised `LoxParserError`
(with the state at the raise), or a result and the new state. -/
inductive PRes (α : Type) where
  | fuelOut
  | raise (s : PS)
  | ok (a : α) (s : PS)
deriving Repr

/-- Sequencing for `PRes`. -/
def bindP {α β : Type} (r : PRes α) (k : α → PS → PRes β) : PRes β :=
  match r with
  | .fuelOut => .fuelOut
  | .raise s => .raise s
  | .ok a s => k a s

/-- Sequencing a `Parser.consume` into a parsing computation. -/
def liftC {α : Type} (r : Except PS (Token × PS)) (k : Token → PS → PRes α) :
    PRes α :=
  match r with
  | .error s => .raise s
  | .ok (t, s) => k t s

mutual

/-- The loop of `Parser.parse`: append `declaration()` results (possibly
`None`) until the end of the tokens. -/
def parseLoop (ts : List Token) (fuel : Nat) (acc : List (Option Stmt))
    (s : PS) : PRes (List (Option Stmt)) :=
  match fuel with
  | 0 => .fuelOut
  | fuel + 1 =>
      if Parser.is_at_end ts s then .ok acc s
      else
        bindP (declaration ts fuel s) fun d s1 =>
          parseLoop ts fuel (acc ++ [d]) s1
termination_by structural fuel

/-- `Parser.declaration`: dispatch on a leading keyword; a `LoxParserError`
raised below is caught here, `synchronize` runs, and `None` is returned. -/
def declaration (ts : List Token) (fuel : Nat) (s : PS) :
    PRes (Option Stmt) :=
  match fuel with
  | 0 => .fuelOut
  | fuel + 1 =>
      let r : PRes Stmt :=
        match Parser.matchTs ts [.CLASS] s with
        | (true, s1) => class_declaration ts fuel s1
        | (false, s1) =>
            match Parser.matchTs ts [.FUN] s1 with
            | (true, s2) =>
                bindP (function_declaration ts "function" fuel s2)
                  fun fd s3 => .ok (Stmt.Function fd.1 fd.2.1 fd.2.2) s3
            | (false, s2) =>
                match Parser.matchTs ts [.VAR] s2 with
                | (true, s3) => var_declaration ts fuel s3
                | (false, s3) => statement ts fuel s3
      match r with
      | .fuelOut => .fuelOut
      | .raise s' =>
          bindP (synchronize ts fuel s') fun _ s'' => .ok none s''
      | .ok stmt s' => .ok (some stmt) s'
termination_by structural fuel

/-- `Parser.class_declaration`. -/
def class_declaration (ts : List Token) (fuel : Nat) (s : PS) : PRes Stmt :=
  match fuel with
  | 0 => .fuelOut
  | fuel + 1 =>
      liftC (Parser.consume ts .IDENTIFIER "expect class name" s) fun name s1 =>
      let rest := fun (superclass : Option Expr) (s2 : PS) =>
        liftC (Parser.consume ts .LEFT_BRACE
            "expect '\x7b' before class body" s2) fun _ s3 =>
        bindP (methodsLoop ts fuel [] s3) fun methods s4 =>
        liftC (Parser.consume ts .RIGHT_BRACE
            "expect '\x7d' after class body" s4) fun _ s5 =>
        .ok (Stmt.Class name superclass methods) s5
      match Parser.matchTs ts [.LESSER] s1 with
      | (true, s2) =>
          liftC (Parser.consume ts .IDENTIFIER "expect superclass name" s2)
            fun _ s3 =>
          rest (some (Expr.Variable (Parser.previous ts s3))) s3
      | (false, s2) => rest none s2
termination_by structural fuel

/-- The method loop in `Parser.class_declaration`. -/
def methodsLoop (ts : List Token) (fuel : Nat)
    (acc : List (Token × List Token × List (Option Stmt))) (s : PS) :
    PRes (List (Token × List Token × List (Option Stmt))) :=
  match fuel with
  | 0 => .fuelOut
  | fuel + 1 =>
      if !Parser.check ts .RIGHT_BRACE s && !Parser.is_at_end ts s then
        bindP (function_declaration ts "method" fuel s) fun m s1 =>
          methodsLoop ts fuel (acc ++ [m]) s1
      else .ok acc s
termination_by structural fuel

/-- `Parser.function_declaration`: name, parameter list, body. -/
def function_declaration (ts : List Token) (kind : String) (fuel : Nat)
    (s : PS) : PRes (Token × List Token × List (Option Stmt)) :=
  match fuel with
  | 0 => .fuelOut
  | fuel + 1 =>
      liftC (Parser.consume ts .IDENTIFIER
          ("expect " ++ kind ++ " name.") s) fun name s1 =>
      liftC (Parser.consume ts .LEFT_PAREN
          ("expect '(' after " ++ kind ++ " name.") s1) fun _ s2 =>
      let rest := fun (params : List Token) (s4 : PS) =>
        liftC (Parser.consume ts .RIGHT_PAREN
            "expect ')' after parameters" s4) fun _ s5 =>
        liftC (Parser.consume ts .LEFT_BRACE
            ("expect '\x7b' before " ++ kind ++ " body") s5) fun _ s6 =>
        bindP (block ts fuel s6) fun body s7 => .ok (name, params, body) s7
      if !Parser.check ts .RIGHT_PAREN s2 then
        liftC (Parser.consume ts .IDENTIFIER "expect parameter name" s2)
          fun p s3 =>
        bindP (paramsLoop ts fuel [p] s3) fun params s4 => rest params s4
      else rest [] s2
termination_by structural fuel

/-- The parameter loop in `Parser.function_declaration`; passing 255
parameters raises through `Parser.error`. -/
def paramsLoop (ts : List Token) (fuel : Nat) (params : List Token) (s : PS) :
    PRes (List Token) :=
  match fuel with
  | 0 => .fuelOut
  | fuel + 1 =>
      match Parser.matchTs ts [.COMMA] s with
      | (false, s1) => .ok params s1
      | (true, s1) =>
          if params.length ≥ 255 then
            .raise (parseError (Parser.peek ts s1)
              "cannot exceed 255 parameters" s1)
          else
            liftC (Parser.consume ts .IDENTIFIER "expect parameter name" s1)
              fun p s2 =>
            paramsLoop ts fuel (params ++ [p]) s2
termination_by structural fuel

/-- `Parser.var_declaration` (the `while True` loop is `varLoop`). -/
def var_declaration (ts : List Token) (fuel : Nat) (s : PS) : PRes Stmt :=
  match fuel with
  | 0 => .fuelOut
  | fuel + 1 =>
      bindP (varLoop ts fuel [] s) fun vars s1 =>
      liftC (Parser.consume ts .SEMICOLON
          "expect ';' after variable declaration" s1) fun _ s2 =>
      .ok (Stmt.Var vars) s2

/-- The loop of `Parser.var_declaration`: one `name (= conditional)?` per
iteration; a name repeated in the same declaration raises through
`Parser.error`. -/
def varLoop (ts : List Token) (fuel : Nat)
    (vars : List (Token × Option Expr)) (s : PS) :
    PRes (List (Token × Option Expr)) :=
  match fuel with
  | 0 => .fuelOut
  | fuel + 1 =>
      liftC (Parser.consume ts .IDENTIFIER "expect variable name" s)
        fun name s1 =>
      bindP
        (match Parser.matchTs ts [.EQUAL] s1 with
         | (true, s2) =>
             bindP (conditional ts fuel s2) fun e s3 => .ok (some e) s3
         | (false, s2) => .ok none s2)
        fun init s2 =>
      if vars.any (fun p => p.1.lexeme == name.lexeme) then
        .raise (parseError name "reuse of same variable in declaration" s2)
      else
        match Parser.matchTs ts [.COMMA] s2 with
        | (true, s3) => varLoop ts fuel (vars ++ [(name, init)]) s3
        | (false, s3) => .ok (vars ++ [(name, init)]) s3
termination_by structural fuel

/-- `Parser.statement`. -/
def statement (ts : List Token) (fuel : Nat) (s : PS) : PRes Stmt :=
  match fuel with
  | 0 => .fuelOut
  | fuel + 1 =>
      match Parser.matchTs ts [.FOR] s with
      | (true, s1) => for_statement ts fuel s1
      | (false, s1) =>
      match Parser.matchTs ts [.IF] s1 with
      | (true, s2) => if_statement ts fuel s2
      | (false, s2) =>
      match Parser.matchTs ts [.PRINT] s2 with
      | (true, s3) => print_statement ts fuel s3
      | (false, s3) =>
      match Parser.matchTs ts [.RETURN] s3 with
      | (true, s4) => return_statement ts fuel s4
      | (false, s4) =>
      match Parser.matchTs ts [.WHILE] s4 with
      | (true, s5) => while_statement ts fuel s5
      | (false, s5) =>
      match Parser.matchTs ts [.LEFT_BRACE] s5 with
      | (true, s6) =>
          bindP (block ts fuel s6) fun stmts s7 => .ok (Stmt.Block stmts) s7
      | (false, s6) => expression_statement ts fuel s6
termination_by structural fuel

/-- `Parser.expression_statement`: the trailing semicolon is optional
(consumed when present). -/
def expression_statement (ts : List Token) (fuel : Nat) (s : PS) :
    PRes Stmt :=
  match fuel with
  | 0 => .fuelOut
  | fuel + 1 =>
      bindP (expression ts fuel s) fun e s1 =>
        .ok (Stmt.Expression e) (Parser.matchTs ts [.SEMICOLON] s1).2

/-- `Parser.for_statement`: parse the three clauses and the body, then
lower to `Block` / `While` exactly as the source does. -/
def for_statement (ts : List Token) (fuel : Nat) (s : PS) : PRes Stmt :=
  match fuel with
  | 0 => .fuelOut
  | fuel + 1 =>
      liftC (Parser.consume ts .LEFT_PAREN "expect '(' after 'while'" s)
        fun _ s1 =>
      let afterInit := fun (init : Option Stmt) (s4 : PS) =>
        let afterCond := fun (condition : Option Expr) (s5 : PS) =>
          liftC (Parser.consume ts .SEMICOLON
              "expect ';' after loop condition" s5) fun _ s6 =>
          let afterInc := fun (increment : Option Expr) (s7 : PS) =>
            liftC (Parser.consume ts .RIGHT_PAREN
                "expect ')' after for clauses" s7) fun _ s8 =>
            bindP (statement ts fuel s8) fun body s9 =>
            let body1 :=
              match increment with
              | some inc => Stmt.Block [some body, some (.Expression inc)]
              | none => body
            let condition1 :=
              match condition with
              | some c => c
              | none => Expr.Literal (.bool true)
            let body2 := Stmt.While condition1 body1
            let body3 :=
              match init with
              | some i => Stmt.Block [some i, some body2]
              | none => body2
            .ok body3 s9
          if !Parser.check ts .RIGHT_PAREN s6 then
            bindP (expression ts fuel s6) fun inc s7 => afterInc (some inc) s7
          else afterInc none s6
        if !Parser.check ts .SEMICOLON s4 then
          bindP (expression ts fuel s4) fun c s5 => afterCond (some c) s5
        else afterCond none s4
      match Parser.matchTs ts [.SEMICOLON] s1 with
      | (true, s2) => afterInit none s2
      | (false, s2) =>
          match Parser.matchTs ts [.VAR] s2 with
          | (true, s3) =>
              bindP (var_declaration ts fuel s3) fun d s4 =>
                afterInit (some d) s4
          | (false, s3) =>
              bindP (expression_statement ts fuel s3) fun d s4 =>
                afterInit (some d) s4
termination_by structural fuel

/-- `Parser.if_statement`. -/
def if_statement (ts : List Token) (fuel : Nat) (s : PS) : PRes Stmt :=
  match fuel with
  | 0 => .fuelOut
  | fuel + 1 =>
      liftC (Parser.consume ts .LEFT_PAREN "expect '(' after 'if'" s)
        fun _ s1 =>
      bindP (expression ts fuel s1) fun condition s2 =>
      liftC (Parser.consume ts .RIGHT_PAREN "expect ')' after if condition" s2)
        fun _ s3 =>
      bindP (statement ts fuel s3) fun then_branch s4 =>
      match Parser.matchTs ts [.ELSE] s4 with
      | (true, s5) =>
          bindP (statement ts fuel s5) fun else_branch s6 =>
            .ok (Stmt.If condition then_branch (some else_branch)) s6
      | (false, s5) => .ok (Stmt.If condition then_branch none) s5
termination_by structural fuel

/-- `Parser.print_statement`. -/
def print_statement (ts : List Token) (fuel : Nat) (s : PS) : PRes Stmt :=
  match fuel with
  | 0 => .fuelOut
  | fuel + 1 =>
      bindP (expression ts fuel s) fun value s1 =>
      liftC (Parser.consume ts .SEMICOLON "expect ';' after value" s1)
        fun _ s2 =>
      .ok (Stmt.Print value) s2

/-- `Parser.return_statement` (entered after `return` was consumed; the
keyword is `previous`). -/
def return_statement (ts : List Token) (fuel : Nat) (s : PS) : PRes Stmt :=
  match fuel with
  | 0 => .fuelOut
  | fuel + 1 =>
      let keyword := Parser.previous ts s
      let rest := fun (value : Option Expr) (s1 : PS) =>
        liftC (Parser.consume ts .SEMICOLON "expect ';' after return value" s1)
          fun _ s2 =>
        .ok (Stmt.Return keyword value) s2
      if !Parser.check ts .SEMICOLON s then
        bindP (expression ts fuel s) fun v s1 => rest (some v) s1
      else rest none s

/-- `Parser.while_statement`. -/
def while_statement (ts : List Token) (fuel : Nat) (s : PS) : PRes Stmt :=
  match fuel with
  | 0 => .fuelOut
  | fuel + 1 =>
      liftC (Parser.consume ts .LEFT_PAREN "expect '(' after 'while'" s)
        fun _ s1 =>
      bindP (expression ts fuel s1) fun condition s2 =>
      liftC (Parser.consume ts .RIGHT_PAREN "expect ')' after condition" s2)
        fun _ s3 =>
      bindP (statement ts fuel s3) fun body s4 =>
        .ok (Stmt.While condition body) s4
termination_by structural fuel

/-- `Parser.block` (the loop is `blockLoop`). -/
def block (ts : List Token) (fuel : Nat) (s : PS) :
    PRes (List (Option Stmt)) :=
  match fuel with
  | 0 => .fuelOut
  | fuel + 1 =>
      bindP (blockLoop ts fuel [] s) fun stmts s1 =>
      liftC (Parser.consume ts .RIGHT_BRACE "expect '\x7d' after block" s1)
        fun _ s2 =>
      .ok stmts s2
termination_by structural fuel

/-- The loop of `Parser.block`. -/
def blockLoop (ts : List Token) (fuel : Nat) (acc : List (Option Stmt))
    (s : PS) : PRes (List (Option Stmt)) :=
  match fuel with
  | 0 => .fuelOut
  | fuel + 1 =>
      if !Parser.check ts .RIGHT_BRACE s && !Parser.is_at_end ts s then
        bindP (declaration ts fuel s) fun d s1 =>
          blockLoop ts fuel (acc ++ [d]) s1
      else .ok acc s
termination_by structural fuel

/-- `Parser.expression`: the grammar's entry is the comma rule; the
`assignment` method below is never reached from here. -/
def expression (ts : List Token) (fuel : Nat) (s : PS) : PRes Expr :=
  match fuel with
  | 0 => .fuelOut
  | fuel + 1 => comma ts fuel s
termination_by structural fuel

/-- `Parser.comma`. -/
def comma (ts : List Token) (fuel : Nat) (s : PS) : PRes Expr :=
  match fuel with
  | 0 => .fuelOut
  | fuel + 1 =>
      bindP (conditional ts fuel s) fun e s1 => commaLoop ts fuel e s1
termination_by structural fuel

/-- The loop of `Parser.comma`. -/
def commaLoop (ts : List Token) (fuel : Nat) (e : Expr) (s : PS) : PRes Expr :=
  match fuel with
  | 0 => .fuelOut
  | fuel + 1 =>
      match Parser.matchTs ts [.COMMA] s with
      | (true, s1) =>
          bindP (conditional ts fuel s1) fun r s2 =>
            commaLoop ts fuel (Expr.Comma e r) s2
      | (false, s1) => .ok e s1
termination_by structural fuel

/-- `Parser.conditional`: ternary `?:`.  Note it descends to `logical_or`
directly; `assignment` is not part of the chain. -/
def conditional (ts : List Token) (fuel : Nat) (s : PS) : PRes Expr :=
  match fuel with
  | 0 => .fuelOut
  | fuel + 1 =>
      bindP (logical_or ts fuel s) fun e s1 =>
      match Parser.matchTs ts [.QMARK] s1 with
      | (true, s2) =>
          bindP (expression ts fuel s2) fun then_expression s3 =>
          liftC (Parser.consume ts .COLON
              "expect ':' after first expression" s3) fun _ s4 =>
          bindP (conditional ts fuel s4) fun else_expression s5 =>
            .ok (Expr.Conditional e then_expression else_expression) s5
      | (false, s2) => .ok e s2
termination_by structural fuel

/-- `Parser.assignment`: dead code in the source (no production invokes
it), embedded for fidelity.  An invalid target reports through
`Parser.error`, which raises. -/
def assignment (ts : List Token) (fuel : Nat) (s : PS) : PRes Expr :=
  match fuel with
  | 0 => .fuelOut
  | fuel + 1 =>
      bindP (logical_or ts fuel s) fun e s1 =>
      match Parser.matchTs ts [.EQUAL] s1 with
      | (true, s2) =>
          let equals := Parser.previous ts s2
          bindP (assignment ts fuel s2) fun value s3 =>
            match e with
            | .Variable name => .ok (Expr.Assign name value) s3
            | .Get item name => .ok (Expr.Set item name value) s3
            | _ => .raise (parseError equals "invalid assignment target" s3)
      | (false, s2) => .ok e s2
termination_by structural fuel

/-- `Parser.logical_or`. -/
def logical_or (ts : List Token) (fuel : Nat) (s : PS) : PRes Expr :=
  match fuel with
  | 0 => .fuelOut
  | fuel + 1 =>
      bindP (logical_and ts fuel s) fun e s1 => orLoop ts fuel e s1
termination_by structural fuel

def orLoop (ts : List Token) (fuel : Nat) (e : Expr) (s : PS) : PRes Expr :=
  match fuel with
  | 0 => .fuelOut
  | fuel + 1 =>
      match Parser.matchTs ts [.OR] s with
      | (true, s1) =>
          let operator := Parser.previous ts s1
          bindP (logical_and ts fuel s1) fun r s2 =>
            orLoop ts fuel (Expr.Logical e operator r) s2
      | (false, s1) => .ok e s1
termination_by structural fuel

/-- `Parser.logical_and`. -/
def logical_and (ts : List Token) (fuel : Nat) (s : PS) : PRes Expr :=
  match fuel with
  | 0 => .fuelOut
  | fuel + 1 =>
      bindP (equality ts fuel s) fun e s1 => andLoop ts fuel e s1
termination_by structural fuel

def andLoop (ts : List Token) (fuel : Nat) (e : Expr) (s : PS) : PRes Expr :=
  match fuel with
  | 0 => .fuelOut
  | fuel + 1 =>
      match Parser.matchTs ts [.AND] s with
      | (true, s1) =>
          let operator := Parser.previous ts s1
          bindP (equality ts fuel s1) fun r s2 =>
            andLoop ts fuel (Expr.Logical e operator r) s2
      | (false, s1) => .ok e s1
termination_by structural fuel

/-- `Parser.equality`. -/
def equality (ts : List Token) (fuel : Nat) (s : PS) : PRes Expr :=
  match fuel with
  | 0 => .fuelOut
  | fuel + 1 =>
      bindP (comparison ts fuel s) fun e s1 => eqLoop ts fuel e s1
termination_by structural fuel

def eqLoop (ts : List Token) (fuel : Nat) (e : Expr) (s : PS) : PRes Expr :=
  match fuel with
  | 0 => .fuelOut
  | fuel + 1 =>
      match Parser.matchTs ts [.BANG_EQUAL, .EQUAL_EQUAL] s with
      | (true, s1) =>
          let operator := Parser.previous ts s1
          bindP (comparison ts fuel s1) fun r s2 =>
            eqLoop ts fuel (Expr.Binary e operator r) s2
      | (false, s1) => .ok e s1
termination_by structural fuel

/-- `Parser.comparison`. -/
def comparison (ts : List Token) (fuel : Nat) (s : PS) : PRes Expr :=
  match fuel with
  | 0 => .fuelOut
  | fuel + 1 =>
      bindP (term ts fuel s) fun e s1 => compLoop ts fuel e s1
termination_by structural fuel

def compLoop (ts : List Token) (fuel : Nat) (e : Expr) (s : PS) : PRes Expr :=
  match fuel with
  | 0 => .fuelOut
  | fuel + 1 =>
      match Parser.matchTs ts
          [.GREATER, .GREATER_EQUAL, .LESSER, .LESSER_EQUAL] s with
      | (true, s1) =>
          let operator := Parser.previous ts s1
          bindP (term ts fuel s1) fun r s2 =>
            compLoop ts fuel (Expr.Binary e operator r) s2
      | (false, s1) => .ok e s1
termination_by structural fuel

/-- `Parser.term`. -/
def term (ts : List Token) (fuel : Nat) (s : PS) : PRes Expr :=
  match fuel with
  | 0 => .fuelOut
  | fuel + 1 =>
      bindP (factor ts fuel s) fun e s1 => termLoop ts fuel e s1
termination_by structural fuel

def termLoop (ts : List Token) (fuel : Nat) (e : Expr) (s : PS) : PRes Expr :=
  match fuel with
  | 0 => .fuelOut
  | fuel + 1 =>
      match Parser.matchTs ts [.MINUS, .PLUS] s with
      | (true, s1) =>
          let operator := Parser.previous ts s1
          bindP (factor ts fuel s1) fun r s2 =>
            termLoop ts fuel (Expr.Binary e operator r) s2
      | (false, s1) => .ok e s1
termination_by structural fuel

/-- `Parser.factor`. -/
def factor (ts : List Token) (fuel : Nat) (s : PS) : PRes Expr :=
  match fuel with
  | 0 => .fuelOut
  | fuel + 1 =>
      bindP (unary ts fuel s) fun e s1 => factorLoop ts fuel e s1
termination_by structural fuel

def factorLoop (ts : List Token) (fuel : Nat) (e : Expr) (s : PS) :
    PRes Expr :=
  match fuel with
  | 0 => .fuelOut
  | fuel + 1 =>
      match Parser.matchTs ts [.SLASH, .STAR] s with
      | (true, s1) =>
          let operator := Parser.previous ts s1
          bindP (unary ts fuel s1) fun r s2 =>
            factorLoop ts fuel (Expr.Binary e operator r) s2
      | (false, s1) => .ok e s1
termination_by structural fuel

/-- `Parser.unary`. -/
def unary (ts : List Token) (fuel : Nat) (s : PS) : PRes Expr :=
  match fuel with
  | 0 => .fuelOut
  | fuel + 1 =>
      match Parser.matchTs ts [.BANG, .MINUS] s with
      | (true, s1) =>
          let operator := Parser.previous ts s1
          bindP (unary ts fuel s1) fun r s2 => .ok (Expr.Unary operator r) s2
      | (false, s1) => callRule ts fuel s1
termination_by structural fuel

/-- `Parser.finish_call`: the argument list and closing parenthesis. -/
def finish_call (ts : List Token) (fuel : Nat) (callee : Expr) (s : PS) :
    PRes Expr :=
  match fuel with
  | 0 => .fuelOut
  | fuel + 1 =>
      let fin := fun (arguments : List Expr) (s2 : PS) =>
        liftC (Parser.consume ts .RIGHT_PAREN "expect ')' after arguments" s2)
          fun paren s3 =>
        .ok (Expr.Call callee paren arguments) s3
      if !Parser.check ts .RIGHT_PAREN s then
        bindP (expression ts fuel s) fun a s1 =>
        bindP (argsLoop ts fuel [a] s1) fun args s2 => fin args s2
      else fin [] s
termination_by structural fuel

/-- The argument loop in `Parser.finish_call`; passing 255 arguments raises
through `Parser.error`. -/
def argsLoop (ts : List Token) (fuel : Nat) (arguments : List Expr) (s : PS) :
    PRes (List Expr) :=
  match fuel with
  | 0 => .fuelOut
  | fuel + 1 =>
      match Parser.matchTs ts [.COMMA] s with
      | (false, s1) => .ok arguments s1
      | (true, s1) =>
          if arguments.length ≥ 255 then
            .raise (parseError (Parser.peek ts s1)
              "cannot exceed 255 arguments" s1)
          else
            bindP (expression ts fuel s1) fun a s2 =>
              argsLoop ts fuel (arguments ++ [a]) s2
termination_by structural fuel

/-- `Parser.call` (named `callRule` here; `call` collides with nothing but
keeps the evaluator's `callCallable` distinct).  Note the loop's shape: a
call suffix not followed by `.` ends the loop even when `(` would follow. -/
def callRule (ts : List Token) (fuel : Nat) (s : PS) : PRes Expr :=
  match fuel with
  | 0 => .fuelOut
  | fuel + 1 =>
      bindP (primary ts fuel s) fun e s1 => callLoop ts fuel e s1
termination_by structural fuel

/-- The `while True` loop of `Parser.call`: an optional `(args)` suffix,
then either a `.name` suffix and another round, or the loop breaks. -/
def callLoop (ts : List Token) (fuel : Nat) (e : Expr) (s : PS) : PRes Expr :=
  match fuel with
  | 0 => .fuelOut
  | fuel + 1 =>
      let afterDot := fun (e1 : Expr) (s2 : PS) =>
        match Parser.matchTs ts [.DOT] s2 with
        | (true, s3) =>
            liftC (Parser.consume ts .IDENTIFIER
                "expect poerty name after '.'" s3) fun name s4 =>
            callLoop ts fuel (Expr.Get e1 name) s4
        | (false, s3) => .ok e1 s3
      match Parser.matchTs ts [.LEFT_PAREN] s with
      | (true, s1) =>
          bindP (finish_call ts fuel e s1) fun e1 s2 => afterDot e1 s2
      | (false, s1) => afterDot e s1
termination_by structural fuel

/-- `Parser.primary`. -/
def primary (ts : List Token) (fuel : Nat) (s : PS) : PRes Expr :=
  match fuel with
  | 0 => .fuelOut
  | fuel + 1 =>
      match Parser.matchTs ts [.FALSE] s with
      | (true, s1) => .ok (Expr.Literal (.bool false)) s1
      | (false, s1) =>
      match Parser.matchTs ts [.TRUE] s1 with
      | (true, s2) => .ok (Expr.Literal (.bool true)) s2
      | (false, s2) =>
      match Parser.matchTs ts [.NIL] s2 with
      | (true, s3) => .ok (Expr.Literal .nil) s3
      | (false, s3) =>
      match Parser.matchTs ts [.NUMBER, .STRING] s3 with
      | (true, s4) =>
          .ok (Expr.Literal
            (match (Parser.previous ts s4).literal with
             | some (.num q) => .num q
             | some (.str x) => .str x
             | none => .nil)) s4
      | (false, s4) =>
      match Parser.matchTs ts [.SUPER] s4 with
      | (true, s5) =>
          let keyword := Parser.previous ts s5
          liftC (Parser.consume ts .DOT "expect '.' after 'super'" s5)
            fun _ s6 =>
          liftC (Parser.consume ts .IDENTIFIER
              "expect superclass method name" s6) fun method s7 =>
          .ok (Expr.Super keyword method) s7
      | (false, s5) =>
      match Parser.matchTs ts [.THIS] s5 with
      | (true, s6) => .ok (Expr.This (Parser.previous ts s6)) s6
      | (false, s6) =>
      match Parser.matchTs ts [.IDENTIFIER] s6 with
      | (true, s7) => .ok (Expr.Variable (Parser.previous ts s7)) s7
      | (false, s7) =>
      match Parser.matchTs ts [.LEFT_PAREN] s7 with
      | (true, s8) =>
          bindP (expression ts fuel s8) fun e s9 =>
          liftC (Parser.consume ts .RIGHT_PAREN
              "Expect ')' after expression." s9) fun _ s10 =>
          .ok (Expr.Grouping e) s10
      | (false, s8) =>
          .raise (parseError (Parser.peek ts s8) "expected expression" s8)
termination_by structural fuel

/-- `Parser.synchronize`: advance once, then skip to just past a semicolon
or to a statement keyword. -/
def synchronize (ts : List Token) (fuel : Nat) (s : PS) : PRes Unit :=
  match fuel with
  | 0 => .fuelOut
  | fuel + 1 => syncLoop ts fuel (Parser.advanceP ts s).2

/-- The loop of `Parser.synchronize`. -/
def syncLoop (ts : List Token) (fuel : Nat) (s : PS) : PRes Unit :=
  match fuel with
  | 0 => .fuelOut
  | fuel + 1 =>
      if Parser.is_at_end ts s then .ok () s
      else if (Parser.previous ts s).token_type == .SEMICOLON then .ok () s
      else
        match (Parser.peek ts s).token_type with
        | .CLASS | .FOR | .FUN | .IF | .PRINT | .RETURN | .VAR | .WHILE =>
            .ok () s
        | _ => syncLoop ts fuel (Parser.advanceP ts s).2
termination_by structural fuel

end

/-- `Parser.parse`: start at token 0 with no errors recorded and collect
declarations up to the `EOF`. -/
def parse (ts : List Token) (fuel : Nat) : PRes (List (Option Stmt)) :=
  parseLoop ts fuel [] ⟨0, []⟩

/-! ## The driver pipeline (src/plox/lox.py, function `run`) -/

/-- The four pipeline stages of `run`. -/
inductive Stage where
  | scan | parse | resolve | interpret
deriving DecidableEq, Repr

/-- What a pipeline stage does to the control flow of `run`: it either
returns — recording a compile error through `lox.error` (which sets the
shared `had_error` flag) or not — or it raises an uncaught Python
exception, which propagates out of `run` and kills the whole call (the
scanner really does this: `IndexError` on an unterminated block comment,
proved below for C6). -/
inductive StageEffect where
  | returns (records_error : Bool)
  | raises
deriving DecidableEq, Repr, Fintype

/-- The control flow of `run` in src/plox/lox.py, with each stage's effect
abstracted by a `StageEffect`.  The result lists the stages that begin
executing: `run` scans; if scanning returned it parses (there is no
`had_error` check between the two); if parsing returned it returns when
`had_error` is set, otherwise resolves; if resolving returned it returns
when `had_error` is set, otherwise interprets.  A raising stage ends the
run at once, so no later stage begins.  (The interpreter stage's own
effect cannot gate anything after it, so it takes no parameter.) -/
def runStages (scan_eff parse_eff resolve_eff : StageEffect) : List Stage :=
  Stage.scan ::
    match scan_eff with
    | .raises => []
    | .returns scan_err =>
      Stage.parse ::
        match parse_eff with
        | .raises => []
        | .returns parse_err =>
          let had_error_after_parse := scan_err || parse_err
          if had_error_after_parse then []
          else
            Stage.resolve ::
              match resolve_eff with
              | .raises => []
              | .returns resolve_err =>
                let had_error_after_resolve :=
                  had_error_after_parse || resolve_err
                if had_error_after_resolve then [] else [Stage.interpret]

/-! ## Inputs and helper predicates for the claims -/

/-- A token with no literal payload on line 1. -/
def tokOf (token_type : TokenType) (lexeme : String) : Token :=
  ⟨token_type, lexeme, none, 1⟩

/-- The token sequence the scanner produces for the source `x = 1;`. -/
def c1_tokens : List Token :=
  [tokOf .IDENTIFIER "x", tokOf .EQUAL "=",
   ⟨.NUMBER, "1", some (.num 1), 1⟩, tokOf .SEMICOLON ";", tokOf .EOF ""]

/-- The output stream of a completed interpreter run. -/
def outputOf (r : ERes Unit) : Option (List String) :=
  match r with
  | .ok _ st => some st.output
  | _ => none

/-- The program `var x = 1; fun f() \x7b x = 2; \x7d f(); print x;`: an
assignment inside the function body targets the captured environment. -/
def c8_prog_assign_inside : List (Option Stmt) :=
  [some (.Var [(tokOf .IDENTIFIER "x", some (.Literal (.num 1)))]),
   some (.Function (tokOf .IDENTIFIER "f") []
     [some (.Expression (.Assign (tokOf .IDENTIFIER "x") (.Literal (.num 2))))]),
   some (.Expression (.Call (.Variable (tokOf .IDENTIFIER "f"))
     (tokOf .RIGHT_PAREN ")") [])),
   some (.Print (.Variable (tokOf .IDENTIFIER "x")))]

/-- The program `var x = 1; fun f() \x7b print x; \x7d x = 5; f();`: an
assignment made after the function value exists is seen by a later call. -/
def c8_prog_assign_after : List (Option Stmt) :=
  [some (.Var [(tokOf .IDENTIFIER "x", some (.Literal (.num 1)))]),
   some (.Function (tokOf .IDENTIFIER "f") []
     [some (.Print (.Variable (tokOf .IDENTIFIER "x")))]),
   some (.Expression (.Assign (tokOf .IDENTIFIER "x") (.Literal (.num 5)))),
   some (.Expression (.Call (.Variable (tokOf .IDENTIFIER "f"))
     (tokOf .RIGHT_PAREN ")") []))]

/-- The final environment address of a run fragment equals `e` (trivially
satisfied when the fuel ran out, a model artifact with no Python
counterpart). -/
def RestoresEnv {α : Type} (r : ERes α) (e : Nat) : Prop :=
  match r with
  | .fuelOut => True
  | .thrown _ st => st.env = e
  | .ok _ st => st.env = e

/-- A token list that ends in its single `EOF` token (the scanner's output
contract, and the hypothesis of the parser-termination claim). -/
def EOFTerminated (ts : List Token) : Prop :=
  ts ≠ [] ∧ ∀ k : Fin ts.length,
    ((ts.get k).token_type = .EOF ↔ (k : Nat) = ts.length - 1)

instance (ts : List Token) : Decidable (EOFTerminated ts) := by
  unfold EOFTerminated; infer_instance

/-- Fuel that always suffices for `parse` on an EOF-terminated token list
(established by the adequacy theorem below): every parsing routine either
consumes a token or descends to a rule of strictly higher precedence, so a
budget of 20 fuel units per token position is enough. -/
def parseFuel (ts : List Token) : Nat :=
  20 * ts.length + 20

/-! ## Adequacy predicates for the parser-termination proof (C9)

For an EOF-terminated token list, `lastOf ts` is the index of the `EOF`
token; the parser never moves past it.  `Adq last lo s r` says a parsing
computation run from state `s` neither ran out of fuel nor left the valid
index range, and consumed at least `lo` tokens on success.  Each parsing
routine gets a rank; a routine running at index `i` is adequate whenever its
fuel is at least `20 * (last - i) + rank`: every call either consumes a
token first (any rank may follow, paid for by the 20) or stays at the same
index and calls a routine of strictly smaller rank. -/

def lastOf (ts : List Token) : Nat := ts.length - 1

/-- Fuel did not run out; the index is monotone and stays in range; success
consumed at least `lo` tokens. -/
def Adq (last lo : Nat) (s : PS) {α : Type} (r : PRes α) : Prop :=
  match r with
  | .fuelOut => False
  | .raise s' => s.i ≤ s'.i ∧ s'.i ≤ last
  | .ok _ s' => s.i + lo ≤ s'.i ∧ s'.i ≤ last

/-- As `Adq`, but the computation also never raises (`synchronize` and its
loop swallow nothing and throw nothing). -/
def AdqN (last : Nat) (s : PS) {α : Type} (r : PRes α) : Prop :=
  match r with
  | .fuelOut => False
  | .raise _ => False
  | .ok _ s' => s.i ≤ s'.i ∧ s'.i ≤ last

/-- The contract of `declaration` (and of `synchronize`): no raise escapes,
and either at least one token was consumed or the parser now stands at the
`EOF`. -/
def AdqD (last : Nat) (s : PS) {α : Type} (r : PRes α) : Prop :=
  match r with
  | .fuelOut => False
  | .raise _ => False
  | .ok _ s' => s.i ≤ s'.i ∧ s'.i ≤ last ∧ (s.i + 1 ≤ s'.i ∨ s'.i = last)

/-- The contract of the `parse` loop: it completes and stops exactly at the
`EOF` token. -/
def AdqParse (last : Nat) {α : Type} (r : PRes α) : Prop :=
  match r with
  | .fuelOut => False
  | .raise _ => False
  | .ok _ s' => s'.i = last

/-- Adequacy of every parsing routine at a given fuel: the conjunction over
the mutual block, proved for all fuel by induction (each routine's field
requires its rank's worth of fuel beyond 20 per remaining token). -/
structure GoodAt (ts : List Token) (fuel : Nat) : Prop where
  hPrimary : ∀ s : PS, s.i ≤ lastOf ts →
    20 * (lastOf ts - s.i) + 1 ≤ fuel → Adq (lastOf ts) 1 s (primary ts fuel s)
  hCallLoop : ∀ (e : Expr) (s : PS), s.i ≤ lastOf ts →
    20 * (lastOf ts - s.i) + 2 ≤ fuel → Adq (lastOf ts) 0 s (callLoop ts fuel e s)
  hCallRule : ∀ s : PS, s.i ≤ lastOf ts →
    20 * (lastOf ts - s.i) + 2 ≤ fuel → Adq (lastOf ts) 1 s (callRule ts fuel s)
  hUnary : ∀ s : PS, s.i ≤ lastOf ts →
    20 * (lastOf ts - s.i) + 3 ≤ fuel → Adq (lastOf ts) 1 s (unary ts fuel s)
  hFactorLoop : ∀ (e : Expr) (s : PS), s.i ≤ lastOf ts →
    20 * (lastOf ts - s.i) + 2 ≤ fuel → Adq (lastOf ts) 0 s (factorLoop ts fuel e s)
  hFactor : ∀ s : PS, s.i ≤ lastOf ts →
    20 * (lastOf ts - s.i) + 4 ≤ fuel → Adq (lastOf ts) 1 s (factor ts fuel s)
  hTermLoop : ∀ (e : Expr) (s : PS), s.i ≤ lastOf ts →
    20 * (lastOf ts - s.i) + 2 ≤ fuel → Adq (lastOf ts) 0 s (termLoop ts fuel e s)
  hTerm : ∀ s : PS, s.i ≤ lastOf ts →
    20 * (lastOf ts - s.i) + 5 ≤ fuel → Adq (lastOf ts) 1 s (term ts fuel s)
  hCompLoop : ∀ (e : Expr) (s : PS), s.i ≤ lastOf ts →
    20 * (lastOf ts - s.i) + 2 ≤ fuel → Adq (lastOf ts) 0 s (compLoop ts fuel e s)
  hComparison : ∀ s : PS, s.i ≤ lastOf ts →
    20 * (lastOf ts - s.i) + 6 ≤ fuel → Adq (lastOf ts) 1 s (comparison ts fuel s)
  hEqLoop : ∀ (e : Expr) (s : PS), s.i ≤ lastOf ts →
    20 * (lastOf ts - s.i) + 2 ≤ fuel → Adq (lastOf ts) 0 s (eqLoop ts fuel e s)
  hEquality : ∀ s : PS, s.i ≤ lastOf ts →
    20 * (lastOf ts - s.i) + 7 ≤ fuel → Adq (lastOf ts) 1 s (equality ts fuel s)
  hAndLoop : ∀ (e : Expr) (s : PS), s.i ≤ lastOf ts →
    20 * (lastOf ts - s.i) + 2 ≤ fuel → Adq (lastOf ts) 0 s (andLoop ts fuel e s)
  hLogicalAnd : ∀ s : PS, s.i ≤ lastOf ts →
    20 * (lastOf ts - s.i) + 8 ≤ fuel → Adq (lastOf ts) 1 s (logical_and ts fuel s)
  hOrLoop : ∀ (e : Expr) (s : PS), s.i ≤ lastOf ts →
    20 * (lastOf ts - s.i) + 2 ≤ fuel → Adq (lastOf ts) 0 s (orLoop ts fuel e s)
  hLogicalOr : ∀ s : PS, s.i ≤ lastOf ts →
    20 * (lastOf ts - s.i) + 9 ≤ fuel → Adq (lastOf ts) 1 s (logical_or ts fuel s)
  hConditional : ∀ s : PS, s.i ≤ lastOf ts →
    20 * (lastOf ts - s.i) + 10 ≤ fuel → Adq (lastOf ts) 1 s (conditional ts fuel s)
  hCommaLoop : ∀ (e : Expr) (s : PS), s.i ≤ lastOf ts →
    20 * (lastOf ts - s.i) + 2 ≤ fuel → Adq (lastOf ts) 0 s (commaLoop ts fuel e s)
  hComma : ∀ s : PS, s.i ≤ lastOf ts →
    20 * (lastOf ts - s.i) + 11 ≤ fuel → Adq (lastOf ts) 1 s (comma ts fuel s)
  hExpression : ∀ s : PS, s.i ≤ lastOf ts →
    20 * (lastOf ts - s.i) + 12 ≤ fuel → Adq (lastOf ts) 1 s (expression ts fuel s)
  hArgsLoop : ∀ (args : List Expr) (s : PS), s.i ≤ lastOf ts →
    20 * (lastOf ts - s.i) + 2 ≤ fuel →
    Adq (lastOf ts) 0 s (argsLoop ts fuel args s)
  hFinishCall : ∀ (callee : Expr) (s : PS), s.i ≤ lastOf ts →
    20 * (lastOf ts - s.i) + 13 ≤ fuel →
    Adq (lastOf ts) 1 s (finish_call ts fuel callee s)
  hExpressionStatement : ∀ s : PS, s.i ≤ lastOf ts →
    20 * (lastOf ts - s.i) + 13 ≤ fuel →
    Adq (lastOf ts) 1 s (expression_statement ts fuel s)
  hPrintStatement : ∀ s : PS, s.i ≤ lastOf ts →
    20 * (lastOf ts - s.i) + 13 ≤ fuel →
    Adq (lastOf ts) 1 s (print_statement ts fuel s)
  hReturnStatement : ∀ s : PS, s.i ≤ lastOf ts →
    20 * (lastOf ts - s.i) + 13 ≤ fuel →
    Adq (lastOf ts) 1 s (return_statement ts fuel s)
  hParamsLoop : ∀ (params : List Token) (s : PS), s.i ≤ lastOf ts →
    20 * (lastOf ts - s.i) + 2 ≤ fuel →
    Adq (lastOf ts) 0 s (paramsLoop ts fuel params s)
  hVarLoop : ∀ (vars : List (Token × Option Expr)) (s : PS), s.i ≤ lastOf ts →
    20 * (lastOf ts - s.i) + 2 ≤ fuel →
    Adq (lastOf ts) 1 s (varLoop ts fuel vars s)
  hVarDeclaration : ∀ s : PS, s.i ≤ lastOf ts →
    20 * (lastOf ts - s.i) + 3 ≤ fuel →
    Adq (lastOf ts) 1 s (var_declaration ts fuel s)
  hForStatement : ∀ s : PS, s.i ≤ lastOf ts →
    20 * (lastOf ts - s.i) + 13 ≤ fuel →
    Adq (lastOf ts) 1 s (for_statement ts fuel s)
  hIfStatement : ∀ s : PS, s.i ≤ lastOf ts →
    20 * (lastOf ts - s.i) + 13 ≤ fuel →
    Adq (lastOf ts) 1 s (if_statement ts fuel s)
  hWhileStatement : ∀ s : PS, s.i ≤ lastOf ts →
    20 * (lastOf ts - s.i) + 13 ≤ fuel →
    Adq (lastOf ts) 1 s (while_statement ts fuel s)
  hMethodsLoop : ∀ (acc : List (Token × List Token × List (Option Stmt)))
    (s : PS), s.i ≤ lastOf ts →
    20 * (lastOf ts - s.i) + 6 ≤ fuel →
    Adq (lastOf ts) 0 s (methodsLoop ts fuel acc s)
  hFunctionDeclaration : ∀ (kind : String) (s : PS), s.i ≤ lastOf ts →
    20 * (lastOf ts - s.i) + 5 ≤ fuel →
    Adq (lastOf ts) 1 s (function_declaration ts kind fuel s)
  hClassDeclaration : ∀ s : PS, s.i ≤ lastOf ts →
    20 * (lastOf ts - s.i) + 13 ≤ fuel →
    Adq (lastOf ts) 1 s (class_declaration ts fuel s)
  hBlockLoop : ∀ (acc : List (Option Stmt)) (s : PS), s.i ≤ lastOf ts →
    20 * (lastOf ts - s.i) + 16 ≤ fuel →
    Adq (lastOf ts) 0 s (blockLoop ts fuel acc s)
  hBlock : ∀ s : PS, s.i ≤ lastOf ts →
    20 * (lastOf ts - s.i) + 17 ≤ fuel → Adq (lastOf ts) 1 s (block ts fuel s)
  hStatement : ∀ s : PS, s.i ≤ lastOf ts →
    20 * (lastOf ts - s.i) + 14 ≤ fuel → Adq (lastOf ts) 1 s (statement ts fuel s)
  hDeclaration : ∀ s : PS, s.i ≤ lastOf ts →
    20 * (lastOf ts - s.i) + 15 ≤ fuel →
    AdqD (lastOf ts) s (declaration ts fuel s)
  hSyncLoop : ∀ s : PS, s.i ≤ lastOf ts →
    20 * (lastOf ts - s.i) + 3 ≤ fuel → AdqN (lastOf ts) s (syncLoop ts fuel s)
  hSynchronize : ∀ s : PS, s.i ≤ lastOf ts →
    20 * (lastOf ts - s.i) + 4 ≤ fuel →
    AdqD (lastOf ts) s (synchronize ts fuel s)
  hParseLoop : ∀ (acc : List (Option Stmt)) (s : PS), s.i ≤ lastOf ts →
    20 * (lastOf ts - s.i) + 16 ≤ fuel →
    AdqParse (lastOf ts) (parseLoop ts fuel acc s)

/-! ## Claim theorems -/

/-- A small helper: the statement loop on an empty list does nothing, at
any fuel. -/
theorem executeStmts_nil (fuel : Nat) (st : InterpState) :
    executeStmts fuel [] st = .ok () st := by
  rw [executeStmts]

/-- C1: the spec says any `IDENT = expression` with a `Variable` (or `Get`)
left side parses as an assignment, so `x = 1;` should yield an `Assign`
expression statement with no syntax error.  In the code,
`Parser.expression` descends comma → conditional → logical_or and the
`assignment` method is never invoked, so the parser returns the bare
variable as an expression statement, then fails at `=` with "expected
expression", synchronizes past the semicolon, and appends `None`. -/
theorem c1_assignment_statement_is_syntax_error :
    parse c1_tokens (parseFuel c1_tokens)
      = .ok [some (.Expression (.Variable (tokOf .IDENTIFIER "x"))), none]
          ⟨4, ["[line 1] error at '=': expected expression"]⟩ := by
  rfl

/-- C2: the spec's equality never raises (`nil == nil` true, `nil == x`
false, other values by value).  The code routes `==` through
`perform_operation` with the number-or-string operand type, so `nil == nil`,
`true == true` and `1 == "1"` all raise the runtime error "operands must be
either both numbers or both strings"; the `is_equal` helper that implements
the spec's rule is dead code. -/
theorem c2_equality_operator_raises_runtime_error :
    (evaluate 3 (.Binary (.Literal .nil) (tokOf .EQUAL_EQUAL "==")
        (.Literal .nil)) (mkInterpreter 0)
      = .thrown (.rte (tokOf .EQUAL_EQUAL "==")
          "operands must be either both numbers or both strings")
          (mkInterpreter 0))
    ∧ (evaluate 3 (.Binary (.Literal (.bool true)) (tokOf .EQUAL_EQUAL "==")
        (.Literal (.bool true))) (mkInterpreter 0)
      = .thrown (.rte (tokOf .EQUAL_EQUAL "==")
          "operands must be either both numbers or both strings")
          (mkInterpreter 0))
    ∧ (evaluate 3 (.Binary (.Literal (.num 1)) (tokOf .EQUAL_EQUAL "==")
        (.Literal (.str "1"))) (mkInterpreter 0)
      = .thrown (.rte (tokOf .EQUAL_EQUAL "==")
          "operands must be either both numbers or both strings")
          (mkInterpreter 0))
    ∧ is_equal .nil .nil = true
    ∧ is_equal .nil (.num 1) = false
    ∧ is_equal (.bool true) (.bool true) = true := by
  refine ⟨rfl, rfl, rfl, rfl, rfl, rfl⟩

/-- C3: the spec's truthiness maps exactly `nil` and `false` to falsey and
everything else — including `0` and `""` — to truthy.  The code's
`is_truthy` starts with Python's `if not item`, which also sends `0` and
`""` to falsey. -/
theorem c3_is_truthy_sends_zero_and_empty_string_to_falsey :
    is_truthy (.num 0) = false ∧ is_truthy (.str "") = false ∧
    is_truthy .nil = false ∧ is_truthy (.bool false) = false ∧
    is_truthy (.bool true) = true ∧ is_truthy (.num 1) = true ∧
    is_truthy (.str "a") = true := by
  refine ⟨rfl, rfl, rfl, rfl, rfl, rfl, rfl⟩

/-- C4: the spec says evaluating `Grouping(e)` evaluates `e` and returns
its runtime value (so `print (1 + 2);` prints `3`).  The code's
`visit_grouping_expr` returns the inner AST node itself, unevaluated: for
every expression and state the result is the raw node, which is not the
number 3 on the spec's example. -/
theorem c4_grouping_returns_inner_ast_node :
    (∀ (fuel : Nat) (e : Expr) (st : InterpState),
       evaluate (fuel + 1) (.Grouping e) st = .ok (.exprNode e) st)
    ∧ evaluate 10 (.Grouping (.Binary (.Literal (.num 1)) (tokOf .PLUS "+")
        (.Literal (.num 2)))) (mkInterpreter 0)
      = .ok (.exprNode (.Binary (.Literal (.num 1)) (tokOf .PLUS "+")
          (.Literal (.num 2)))) (mkInterpreter 0)
    ∧ Value.exprNode (.Binary (.Literal (.num 1)) (tokOf .PLUS "+")
        (.Literal (.num 2))) ≠ Value.num 3 := by
  refine ⟨fun fuel e st => rfl, rfl, fun h => Value.noConfusion h⟩

/-- C5: the spec's `<=` holds between two numbers exactly when the left is
less than or equal to the right (so `3 <= 3` is true), and requires two
number operands.  The code dispatches `LESSER_EQUAL` to `operator.lt` with
the default number-or-string operand type: on numbers it computes strict
less-than for every pair (so `3 <= 3` is false), and two strings are
compared instead of raising. -/
theorem c5_lesser_equal_is_strict_less_and_accepts_strings :
    (∀ (fuel : Nat) (a b : ℚ) (st : InterpState),
       evaluate (fuel + 3) (.Binary (.Literal (.num a))
           (tokOf .LESSER_EQUAL "<=") (.Literal (.num b))) st
         = .ok (.bool (decide (a < b))) st)
    ∧ evaluate 10 (.Binary (.Literal (.num 3)) (tokOf .LESSER_EQUAL "<=")
        (.Literal (.num 3))) (mkInterpreter 0)
      = .ok (.bool false) (mkInterpreter 0)
    ∧ evaluate 10 (.Binary (.Literal (.str "a")) (tokOf .LESSER_EQUAL "<=")
        (.Literal (.str "b"))) (mkInterpreter 0)
      = .ok (.bool true) (mkInterpreter 0) := by
  refine ⟨fun fuel a b st => rfl, rfl, rfl⟩

/-- C6: the spec's scanner never throws on malformed input and always ends
with a single `EOF` token.  On the two-character source `/*` the
block-comment loop records "unterminated block comment" and breaks with the
cursor already at the end, and the unconditional `self.advance()` that
follows reads `source[2]` out of range: the scan dies with `IndexError`
instead of returning a token list. -/
theorem c6_scanner_raises_index_error_on_unterminated_block_comment :
    scan_tokens 100 "/*".toList
      = .error ("IndexError",
          ⟨"/*".toList, [], 0, 2, 1,
           ["[line 1] error : unterminated block comment"]⟩) := by
  rfl

/-- C7, counterexample: the claim says a compile error recorded during
scanning prevents parsing from running.  In `run` the first `had_error`
check only happens after `parser.parse()`, so when the scanner returns
having recorded a compile error (e.g. an unexpected character, which goes
through `lox.error` and sets `had_error`), the parse stage still
executes. -/
theorem c7_counterexample_parse_runs_after_scan_error :
    Stage.parse ∈
      runStages (.returns true) (.returns false) (.returns false) := by
  decide

/-- C7, amended: there is no `had_error` check between scanning and
parsing — whenever the scanner returns, even with the compile-error flag
set, parsing runs; parsing runs only if the scanner returned at all (an
uncaught scanner exception kills the run first); resolving runs exactly
when scanning and parsing both returned without recording a compile
error; and evaluation runs exactly when all three earlier stages
returned without recording one. -/
theorem c7_pipeline_gating_after_parse_and_resolve :
    ∀ scan_eff parse_eff resolve_eff : StageEffect,
      Stage.scan ∈ runStages scan_eff parse_eff resolve_eff
      ∧ (Stage.parse ∈ runStages scan_eff parse_eff resolve_eff
          ↔ ∃ e : Bool, scan_eff = .returns e)
      ∧ (Stage.resolve ∈ runStages scan_eff parse_eff resolve_eff
          ↔ scan_eff = .returns false ∧ parse_eff = .returns false)
      ∧ (Stage.interpret ∈ runStages scan_eff parse_eff resolve_eff
          ↔ scan_eff = .returns false ∧ parse_eff = .returns false
            ∧ resolve_eff = .returns false) := by
  decide

/-- C8: executing a function declaration builds a `LoxFunction` whose
closure is the environment current at that moment (an address into the
shared store, i.e. capture by reference), and defines the name there.  The
two concrete runs observe the two directions of sharing: an assignment
inside the function body is visible outside afterwards (prints 2), and an
assignment made after the function value was created is visible to a later
call (prints 5). -/
theorem c8_function_closure_is_declaration_environment :
    (∀ (fuel : Nat) (st : InterpState) (name : Token) (params : List Token)
       (body : List (Option Stmt)),
       execute (fuel + 1) (.Function name params body) st
         = .ok () (define st st.env name.lexeme
             (.function ⟨name, params, body, st.env, false⟩)))
    ∧ outputOf (interpret 30 c8_prog_assign_inside false (mkInterpreter 0))
        = some ["2"]
    ∧ outputOf (interpret 30 c8_prog_assign_after false (mkInterpreter 0))
        = some ["5"] := by
  refine ⟨fun fuel st name params body => rfl, rfl, rfl⟩

/-- C10: `execute_block` switches `self.env` and restores it in a
`finally`: whatever the statements do — complete normally or unwind with a
`Return`, `Break` or runtime-error signal — the resulting environment is
the one current before the call; and on the empty statement list the whole
interpreter state is returned unchanged, so the scope switch by itself
touches no other field. -/
theorem c10_execute_block_restores_environment :
    (∀ (fuel : Nat) (statements : List (Option Stmt)) (env : Nat)
       (st : InterpState),
       RestoresEnv (execute_block fuel statements env st) st.env)
    ∧ (∀ (fuel : Nat) (env : Nat) (st : InterpState),
       execute_block (fuel + 1) [] env st = .ok () st) := by
  constructor
  · intro fuel statements env st
    cases fuel with
    | zero => exact trivial
    | succ f =>
        show RestoresEnv
          (match executeStmts f statements { st with env := env } with
           | ERes.fuelOut => ERes.fuelOut
           | ERes.thrown s st' => ERes.thrown s { st' with env := st.env }
           | ERes.ok a st' => ERes.ok a { st' with env := st.env }) st.env
        cases executeStmts f statements { st with env := env } with
        | fuelOut => exact trivial
        | thrown s st' => exact rfl
        | ok a st' => exact rfl
  · intro fuel env st
    show (match executeStmts fuel [] { st with env := env } with
          | ERes.fuelOut => ERes.fuelOut
          | ERes.thrown s st' => ERes.thrown s { st' with env := st.env }
          | ERes.ok a st' => ERes.ok a { st' with env := st.env }) = ERes.ok () st
    rw [executeStmts_nil]

/-! ### Parser helper facts used by the termination proof (C9) -/

theorem lastOf_lt_length {ts : List Token} (h : EOFTerminated ts) :
    lastOf ts < ts.length := by
  have : 0 < ts.length := List.length_pos.mpr h.1
  exact Nat.sub_lt this Nat.one_pos

theorem peek_eq_get {ts : List Token} (hE : EOFTerminated ts) {s : PS}
    (h : s.i ≤ lastOf ts) :
    Parser.peek ts s = ts.get ⟨s.i, lt_of_le_of_lt h (lastOf_lt_length hE)⟩ := by
  unfold Parser.peek
  exact List.getD_eq_get ts eofTok (lt_of_le_of_lt h (lastOf_lt_length hE))

theorem is_at_end_iff {ts : List Token} (hE : EOFTerminated ts) {s : PS}
    (h : s.i ≤ lastOf ts) :
    Parser.is_at_end ts s = true ↔ s.i = lastOf ts := by
  unfold Parser.is_at_end
  rw [peek_eq_get hE h, beq_iff_eq]
  exact hE.2 ⟨s.i, lt_of_le_of_lt h (lastOf_lt_length hE)⟩

theorem is_at_end_false_lt {ts : List Token} (hE : EOFTerminated ts) {s : PS}
    (h : s.i ≤ lastOf ts) (hne : Parser.is_at_end ts s = false) :
    s.i < lastOf ts := by
  rcases Nat.lt_or_eq_of_le h with hlt | heq
  · exact hlt
  · exact absurd ((is_at_end_iff hE h).mpr heq) (by simp [hne])

theorem is_at_end_of_eq {ts : List Token} (hE : EOFTerminated ts) {s : PS}
    (h : s.i ≤ lastOf ts) (heq : s.i = lastOf ts) :
    Parser.is_at_end ts s = true :=
  (is_at_end_iff hE h).mpr heq

theorem advanceP_at_end {ts : List Token} {s : PS}
    (h : Parser.is_at_end ts s = true) :
    (Parser.advanceP ts s).2 = s := by
  unfold Parser.advanceP
  rw [h]
  simp

theorem advanceP_not_end {ts : List Token} {s : PS}
    (h : Parser.is_at_end ts s = false) :
    (Parser.advanceP ts s).2 = { s with i := s.i + 1 } := by
  unfold Parser.advanceP
  rw [h]
  simp

theorem matchTs_true_spec {ts : List Token} {tts : List TokenType}
    {s s1 : PS} (h : Parser.matchTs ts tts s = (true, s1)) :
    s1 = { s with i := s.i + 1 } ∧ Parser.is_at_end ts s = false := by
  unfold Parser.matchTs at h
  by_cases hc : tts.any (fun tt => Parser.check ts tt s)
  · rw [if_pos hc] at h
    obtain ⟨tt, _, htt⟩ := List.any_eq_true.mp hc
    have hne : Parser.is_at_end ts s = false := by
      unfold Parser.check at htt
      by_cases hend : Parser.is_at_end ts s
      · rw [if_pos hend] at htt; exact absurd htt (by simp)
      · simpa using hend
    refine ⟨?_, hne⟩
    have := h.symm
    rw [advanceP_not_end hne] at h
    exact (Prod.mk.injEq _ _ _ _).mp h |>.2.symm
  · rw [if_neg hc] at h
    exact absurd ((Prod.mk.injEq _ _ _ _).mp h).1 (by simp)

theorem matchTs_false_spec {ts : List Token} {tts : List TokenType}
    {s s1 : PS} (h : Parser.matchTs ts tts s = (false, s1)) : s1 = s := by
  unfold Parser.matchTs at h
  by_cases hc : tts.any (fun tt => Parser.check ts tt s)
  · rw [if_pos hc] at h
    exact absurd ((Prod.mk.injEq _ _ _ _).mp h).1 (by simp)
  · rw [if_neg hc] at h
    exact ((Prod.mk.injEq _ _ _ _).mp h).2.symm

theorem parseError_i (t : Token) (m : String) (s : PS) :
    (parseError t m s).i = s.i := rfl

theorem consume_ok_spec {ts : List Token} {tt : TokenType} {msg : String}
    {s s1 : PS} {t : Token}
    (h : Parser.consume ts tt msg s = .ok (t, s1)) :
    s1 = { s with i := s.i + 1 } ∧ Parser.is_at_end ts s = false := by
  unfold Parser.consume at h
  by_cases hc : Parser.check ts tt s
  · have hne : Parser.is_at_end ts s = false := by
      unfold Parser.check at hc
      by_cases hend : Parser.is_at_end ts s
      · rw [if_pos hend] at hc; exact absurd hc (by simp)
      · simpa using hend
    rw [if_pos hc] at h
    refine ⟨?_, hne⟩
    have h2 := congrArg Prod.snd (Except.ok.inj h)
    rw [advanceP_not_end hne] at h2
    exact h2.symm
  · rw [if_neg hc] at h
    exact absurd h (by simp)

theorem consume_error_spec {ts : List Token} {tt : TokenType} {msg : String}
    {s s1 : PS} (h : Parser.consume ts tt msg s = .error s1) :
    s1.i = s.i := by
  unfold Parser.consume at h
  by_cases hc : Parser.check ts tt s
  · rw [if_pos hc] at h; exact absurd h (by simp)
  · rw [if_neg hc] at h
    have := (Except.error.injEq _ _).mp h
    rw [← this]
    rfl

/-! ### Composition lemmas for the adequacy predicates -/

theorem Adq_mono {α : Type} {last lo lo' : Nat} {s : PS} {r : PRes α}
    (h : Adq last lo s r) (hle : lo' ≤ lo) : Adq last lo' s r := by
  cases r with
  | fuelOut => exact h
  | raise s' => exact h
  | ok a s' =>
      obtain ⟨h1, h2⟩ := h
      exact ⟨by omega, h2⟩

theorem Adq_bindP {α β : Type} {last lo1 lo2 : Nat} {s : PS} {r : PRes α}
    {k : α → PS → PRes β}
    (h : Adq last lo1 s r)
    (hk : ∀ a s1, r = .ok a s1 → Adq last lo2 s1 (k a s1)) :
    Adq last (lo1 + lo2) s (bindP r k) := by
  cases r with
  | fuelOut => exact h.elim
  | raise s' => exact h
  | ok a s1 =>
      have h2 := hk a s1 rfl
      show Adq last (lo1 + lo2) s (k a s1)
      obtain ⟨ha, hb⟩ := h
      cases hk2 : k a s1 with
      | fuelOut => rw [hk2] at h2; exact h2.elim
      | raise s2 =>
          rw [hk2] at h2
          obtain ⟨h2a, h2b⟩ := h2
          exact ⟨by omega, h2b⟩
      | ok b s2 =>
          rw [hk2] at h2
          obtain ⟨h2a, h2b⟩ := h2
          exact ⟨by omega, h2b⟩

theorem Adq_rebase {α : Type} {last lo lo' : Nat} {s s1 : PS} {r : PRes α}
    (h : Adq last lo s1 r) (hi : s.i + lo' ≤ s1.i + lo) (hi2 : s.i ≤ s1.i) :
    Adq last lo' s r := by
  cases r with
  | fuelOut => exact h.elim
  | raise s2 =>
      obtain ⟨h1, h2⟩ := h
      exact ⟨by omega, h2⟩
  | ok a s2 =>
      obtain ⟨h1, h2⟩ := h
      exact ⟨by omega, h2⟩

theorem Adq_bindK {α β : Type} {last lo1 : Nat} (lo2 : Nat) {s : PS}
    {r : PRes α} {k : α → PS → PRes β}
    (h : Adq last lo1 s r)
    (hk : ∀ a s1, r = .ok a s1 → Adq last lo2 s1 (k a s1)) :
    Adq last (lo1 + lo2) s (bindP r k) := by
  cases r with
  | fuelOut => exact h.elim
  | raise s' => exact h
  | ok a s1 =>
      have h2 := hk a s1 rfl
      show Adq last (lo1 + lo2) s (k a s1)
      obtain ⟨ha, hb⟩ := h
      exact Adq_rebase h2 (by omega) (by omega)

theorem Adq_liftCK {α : Type} {ts : List Token} (hE : EOFTerminated ts)
    (lo2 : Nat) {s : PS} {tt : TokenType} {msg : String}
    {k : Token → PS → PRes α} (hs : s.i ≤ lastOf ts)
    (hk : ∀ t (s1 : PS), Parser.consume ts tt msg s = .ok (t, s1) →
      s1.i = s.i + 1 → s.i < lastOf ts → Adq (lastOf ts) lo2 s1 (k t s1)) :
    Adq (lastOf ts) (1 + lo2) s (liftC (Parser.consume ts tt msg s) k) := by
  cases hc : Parser.consume ts tt msg s with
  | error s1 =>
      have hi := consume_error_spec hc
      show Adq (lastOf ts) (1 + lo2) s (.raise s1)
      exact ⟨by omega, by omega⟩
  | ok p =>
      obtain ⟨t, s1⟩ := p
      obtain ⟨he, hne⟩ := consume_ok_spec hc
      have hi1 : s1.i = s.i + 1 := by rw [he]
      have hlt : s.i < lastOf ts := is_at_end_false_lt hE hs hne
      have h2 := hk t s1 hc hi1 hlt
      show Adq (lastOf ts) (1 + lo2) s (k t s1)
      exact Adq_rebase h2 (by omega) (by omega)

/-! ### Step lemmas: each parsing routine is adequate at fuel `fuel + 1`
given `GoodAt ts fuel`. -/

theorem step_expression {ts : List Token} {fuel : Nat} (ih : GoodAt ts fuel) :
    ∀ s : PS, s.i ≤ lastOf ts → 20 * (lastOf ts - s.i) + 12 ≤ fuel + 1 →
    Adq (lastOf ts) 1 s (expression ts (fuel + 1) s) := by
  intro s hs hf
  rw [expression]
  exact ih.hComma s hs (by omega)

theorem step_comma {ts : List Token} {fuel : Nat} (ih : GoodAt ts fuel) :
    ∀ s : PS, s.i ≤ lastOf ts → 20 * (lastOf ts - s.i) + 11 ≤ fuel + 1 →
    Adq (lastOf ts) 1 s (comma ts (fuel + 1) s) := by
  intro s hs hf
  rw [comma]
  have h1 := ih.hConditional s hs (by omega)
  refine Adq_rebase (Adq_bindK 0 h1 ?_) (by omega) (by omega)
  intro a s1 hok
  rw [hok] at h1
  obtain ⟨h1a, h1b⟩ := h1
  exact ih.hCommaLoop a s1 h1b (by omega)

theorem step_commaLoop {ts : List Token} (hE : EOFTerminated ts) {fuel : Nat}
    (ih : GoodAt ts fuel) :
    ∀ (e : Expr) (s : PS), s.i ≤ lastOf ts →
    20 * (lastOf ts - s.i) + 2 ≤ fuel + 1 →
    Adq (lastOf ts) 0 s (commaLoop ts (fuel + 1) e s) := by
  intro e s hs hf
  rw [commaLoop]
  split
  next s1 heq =>
    obtain ⟨he, hne⟩ := matchTs_true_spec heq
    have hi1 : s1.i = s.i + 1 := by rw [he]
    have hlt : s.i < lastOf ts := is_at_end_false_lt hE hs hne
    have h1 := ih.hConditional s1 (by omega) (by omega)
    refine Adq_rebase (Adq_bindK 0 h1 ?_) (by omega) (by omega)
    intro a s2 hok
    rw [hok] at h1
    obtain ⟨h1a, h1b⟩ := h1
    exact ih.hCommaLoop (Expr.Comma e a) s2 h1b (by omega)
  next s1 heq =>
    have := matchTs_false_spec heq
    subst this
    exact ⟨by omega, hs⟩

theorem step_conditional {ts : List Token} (hE : EOFTerminated ts)
    {fuel : Nat} (ih : GoodAt ts fuel) :
    ∀ s : PS, s.i ≤ lastOf ts → 20 * (lastOf ts - s.i) + 10 ≤ fuel + 1 →
    Adq (lastOf ts) 1 s (conditional ts (fuel + 1) s) := by
  intro s hs hf
  rw [conditional]
  have h1 := ih.hLogicalOr s hs (by omega)
  refine Adq_rebase (Adq_bindK 0 h1 ?_) (by omega) (by omega)
  intro a s1 hok
  rw [hok] at h1
  obtain ⟨h1a, h1b⟩ := h1
  split
  next s2 heq =>
    obtain ⟨he, hne⟩ := matchTs_true_spec heq
    have hi2 : s2.i = s1.i + 1 := by rw [he]
    have hlt := is_at_end_false_lt hE h1b hne
    have h2 := ih.hExpression s2 (by omega) (by omega)
    refine Adq_rebase (Adq_bindK 0 h2 ?_) (by omega) (by omega)
    intro t s3 hok2
    rw [hok2] at h2
    obtain ⟨h2a, h2b⟩ := h2
    refine Adq_rebase (Adq_liftCK hE 0 h2b ?_) (by omega) (by omega)
    intro t2 s4 hc hi4 hlt3
    have h3 := ih.hConditional s4 (by omega) (by omega)
    refine Adq_rebase (Adq_bindK 0 h3 ?_) (by omega) (by omega)
    intro el s5 hok3
    rw [hok3] at h3
    obtain ⟨h3a, h3b⟩ := h3
    exact ⟨by omega, h3b⟩
  next s2 heq =>
    have := matchTs_false_spec heq
    subst this
    exact ⟨by omega, h1b⟩

theorem step_logical_or {ts : List Token} {fuel : Nat} (ih : GoodAt ts fuel) :
    ∀ s : PS, s.i ≤ lastOf ts → 20 * (lastOf ts - s.i) + 9 ≤ fuel + 1 →
    Adq (lastOf ts) 1 s (logical_or ts (fuel + 1) s) := by
  intro s hs hf
  rw [logical_or]
  have h1 := ih.hLogicalAnd s hs (by omega)
  refine Adq_rebase (Adq_bindK 0 h1 ?_) (by omega) (by omega)
  intro a s1 hok
  rw [hok] at h1
  obtain ⟨h1a, h1b⟩ := h1
  exact ih.hOrLoop a s1 h1b (by omega)

theorem step_orLoop {ts : List Token} (hE : EOFTerminated ts) {fuel : Nat}
    (ih : GoodAt ts fuel) :
    ∀ (e : Expr) (s : PS), s.i ≤ lastOf ts →
    20 * (lastOf ts - s.i) + 2 ≤ fuel + 1 →
    Adq (lastOf ts) 0 s (orLoop ts (fuel + 1) e s) := by
  intro e s hs hf
  rw [orLoop]
  split
  next s1 heq =>
    obtain ⟨he, hne⟩ := matchTs_true_spec heq
    have hi1 : s1.i = s.i + 1 := by rw [he]
    have hlt : s.i < lastOf ts := is_at_end_false_lt hE hs hne
    have h1 := ih.hLogicalAnd s1 (by omega) (by omega)
    refine Adq_rebase (Adq_bindK 0 h1 ?_) (by omega) (by omega)
    intro a s2 hok
    rw [hok] at h1
    obtain ⟨h1a, h1b⟩ := h1
    exact ih.hOrLoop (Expr.Logical e (Parser.previous ts s1) a) s2 h1b (by omega)
  next s1 heq =>
    have := matchTs_false_spec heq
    subst this
    exact ⟨by omega, hs⟩

theorem step_logical_and {ts : List Token} {fuel : Nat} (ih : GoodAt ts fuel) :
    ∀ s : PS, s.i ≤ lastOf ts → 20 * (lastOf ts - s.i) + 8 ≤ fuel + 1 →
    Adq (lastOf ts) 1 s (logical_and ts (fuel + 1) s) := by
  intro s hs hf
  rw [logical_and]
  have h1 := ih.hEquality s hs (by omega)
  refine Adq_rebase (Adq_bindK 0 h1 ?_) (by omega) (by omega)
  intro a s1 hok
  rw [hok] at h1
  obtain ⟨h1a, h1b⟩ := h1
  exact ih.hAndLoop a s1 h1b (by omega)

theorem step_andLoop {ts : List Token} (hE : EOFTerminated ts) {fuel : Nat}
    (ih : GoodAt ts fuel) :
    ∀ (e : Expr) (s : PS), s.i ≤ lastOf ts →
    20 * (lastOf ts - s.i) + 2 ≤ fuel + 1 →
    Adq (lastOf ts) 0 s (andLoop ts (fuel + 1) e s) := by
  intro e s hs hf
  rw [andLoop]
  split
  next s1 heq =>
    obtain ⟨he, hne⟩ := matchTs_true_spec heq
    have hi1 : s1.i = s.i + 1 := by rw [he]
    have hlt : s.i < lastOf ts := is_at_end_false_lt hE hs hne
    have h1 := ih.hEquality s1 (by omega) (by omega)
    refine Adq_rebase (Adq_bindK 0 h1 ?_) (by omega) (by omega)
    intro a s2 hok
    rw [hok] at h1
    obtain ⟨h1a, h1b⟩ := h1
    exact ih.hAndLoop (Expr.Logical e (Parser.previous ts s1) a) s2 h1b (by omega)
  next s1 heq =>
    have := matchTs_false_spec heq
    subst this
    exact ⟨by omega, hs⟩

theorem step_equality {ts : List Token} {fuel : Nat} (ih : GoodAt ts fuel) :
    ∀ s : PS, s.i ≤ lastOf ts → 20 * (lastOf ts - s.i) + 7 ≤ fuel + 1 →
    Adq (lastOf ts) 1 s (equality ts (fuel + 1) s) := by
  intro s hs hf
  rw [equality]
  have h1 := ih.hComparison s hs (by omega)
  refine Adq_rebase (Adq_bindK 0 h1 ?_) (by omega) (by omega)
  intro a s1 hok
  rw [hok] at h1
  obtain ⟨h1a, h1b⟩ := h1
  exact ih.hEqLoop a s1 h1b (by omega)

theorem step_eqLoop {ts : List Token} (hE : EOFTerminated ts) {fuel : Nat}
    (ih : GoodAt ts fuel) :
    ∀ (e : Expr) (s : PS), s.i ≤ lastOf ts →
    20 * (lastOf ts - s.i) + 2 ≤ fuel + 1 →
    Adq (lastOf ts) 0 s (eqLoop ts (fuel + 1) e s) := by
  intro e s hs hf
  rw [eqLoop]
  split
  next s1 heq =>
    obtain ⟨he, hne⟩ := matchTs_true_spec heq
    have hi1 : s1.i = s.i + 1 := by rw [he]
    have hlt : s.i < lastOf ts := is_at_end_false_lt hE hs hne
    have h1 := ih.hComparison s1 (by omega) (by omega)
    refine Adq_rebase (Adq_bindK 0 h1 ?_) (by omega) (by omega)
    intro a s2 hok
    rw [hok] at h1
    obtain ⟨h1a, h1b⟩ := h1
    exact ih.hEqLoop (Expr.Binary e (Parser.previous ts s1) a) s2 h1b (by omega)
  next s1 heq =>
    have := matchTs_false_spec heq
    subst this
    exact ⟨by omega, hs⟩

theorem step_comparison {ts : List Token} {fuel : Nat} (ih : GoodAt ts fuel) :
    ∀ s : PS, s.i ≤ lastOf ts → 20 * (lastOf ts - s.i) + 6 ≤ fuel + 1 →
    Adq (lastOf ts) 1 s (comparison ts (fuel + 1) s) := by
  intro s hs hf
  rw [comparison]
  have h1 := ih.hTerm s hs (by omega)
  refine Adq_rebase (Adq_bindK 0 h1 ?_) (by omega) (by omega)
  intro a s1 hok
  rw [hok] at h1
  obtain ⟨h1a, h1b⟩ := h1
  exact ih.hCompLoop a s1 h1b (by omega)

theorem step_compLoop {ts : List Token} (hE : EOFTerminated ts) {fuel : Nat}
    (ih : GoodAt ts fuel) :
    ∀ (e : Expr) (s : PS), s.i ≤ lastOf ts →
    20 * (lastOf ts - s.i) + 2 ≤ fuel + 1 →
    Adq (lastOf ts) 0 s (compLoop ts (fuel + 1) e s) := by
  intro e s hs hf
  rw [compLoop]
  split
  next s1 heq =>
    obtain ⟨he, hne⟩ := matchTs_true_spec heq
    have hi1 : s1.i = s.i + 1 := by rw [he]
    have hlt : s.i < lastOf ts := is_at_end_false_lt hE hs hne
    have h1 := ih.hTerm s1 (by omega) (by omega)
    refine Adq_rebase (Adq_bindK 0 h1 ?_) (by omega) (by omega)
    intro a s2 hok
    rw [hok] at h1
    obtain ⟨h1a, h1b⟩ := h1
    exact ih.hCompLoop (Expr.Binary e (Parser.previous ts s1) a) s2 h1b (by omega)
  next s1 heq =>
    have := matchTs_false_spec heq
    subst this
    exact ⟨by omega, hs⟩

theorem step_term {ts : List Token} {fuel : Nat} (ih : GoodAt ts fuel) :
    ∀ s : PS, s.i ≤ lastOf ts → 20 * (lastOf ts - s.i) + 5 ≤ fuel + 1 →
    Adq (lastOf ts) 1 s (term ts (fuel + 1) s) := by
  intro s hs hf
  rw [term]
  have h1 := ih.hFactor s hs (by omega)
  refine Adq_rebase (Adq_bindK 0 h1 ?_) (by omega) (by omega)
  intro a s1 hok
  rw [hok] at h1
  obtain ⟨h1a, h1b⟩ := h1
  exact ih.hTermLoop a s1 h1b (by omega)

theorem step_termLoop {ts : List Token} (hE : EOFTerminated ts) {fuel : Nat}
    (ih : GoodAt ts fuel) :
    ∀ (e : Expr) (s : PS), s.i ≤ lastOf ts →
    20 * (lastOf ts - s.i) + 2 ≤ fuel + 1 →
    Adq (lastOf ts) 0 s (termLoop ts (fuel + 1) e s) := by
  intro e s hs hf
  rw [termLoop]
  split
  next s1 heq =>
    obtain ⟨he, hne⟩ := matchTs_true_spec heq
    have hi1 : s1.i = s.i + 1 := by rw [he]
    have hlt : s.i < lastOf ts := is_at_end_false_lt hE hs hne
    have h1 := ih.hFactor s1 (by omega) (by omega)
    refine Adq_rebase (Adq_bindK 0 h1 ?_) (by omega) (by omega)
    intro a s2 hok
    rw [hok] at h1
    obtain ⟨h1a, h1b⟩ := h1
    exact ih.hTermLoop (Expr.Binary e (Parser.previous ts s1) a) s2 h1b (by omega)
  next s1 heq =>
    have := matchTs_false_spec heq
    subst this
    exact ⟨by omega, hs⟩

theorem step_factor {ts : List Token} {fuel : Nat} (ih : GoodAt ts fuel) :
    ∀ s : PS, s.i ≤ lastOf ts → 20 * (lastOf ts - s.i) + 4 ≤ fuel + 1 →
    Adq (lastOf ts) 1 s (factor ts (fuel + 1) s) := by
  intro s hs hf
  rw [factor]
  have h1 := ih.hUnary s hs (by omega)
  refine Adq_rebase (Adq_bindK 0 h1 ?_) (by omega) (by omega)
  intro a s1 hok
  rw [hok] at h1
  obtain ⟨h1a, h1b⟩ := h1
  exact ih.hFactorLoop a s1 h1b (by omega)

theorem step_factorLoop {ts : List Token} (hE : EOFTerminated ts) {fuel : Nat}
    (ih : GoodAt ts fuel) :
    ∀ (e : Expr) (s : PS), s.i ≤ lastOf ts →
    20 * (lastOf ts - s.i) + 2 ≤ fuel + 1 →
    Adq (lastOf ts) 0 s (factorLoop ts (fuel + 1) e s) := by
  intro e s hs hf
  rw [factorLoop]
  split
  next s1 heq =>
    obtain ⟨he, hne⟩ := matchTs_true_spec heq
    have hi1 : s1.i = s.i + 1 := by rw [he]
    have hlt : s.i < lastOf ts := is_at_end_false_lt hE hs hne
    have h1 := ih.hUnary s1 (by omega) (by omega)
    refine Adq_rebase (Adq_bindK 0 h1 ?_) (by omega) (by omega)
    intro a s2 hok
    rw [hok] at h1
    obtain ⟨h1a, h1b⟩ := h1
    exact ih.hFactorLoop (Expr.Binary e (Parser.previous ts s1) a) s2 h1b (by omega)
  next s1 heq =>
    have := matchTs_false_spec heq
    subst this
    exact ⟨by omega, hs⟩

theorem step_unary {ts : List Token} (hE : EOFTerminated ts) {fuel : Nat}
    (ih : GoodAt ts fuel) :
    ∀ s : PS, s.i ≤ lastOf ts → 20 * (lastOf ts - s.i) + 3 ≤ fuel + 1 →
    Adq (lastOf ts) 1 s (unary ts (fuel + 1) s) := by
  intro s hs hf
  rw [unary]
  split
  next s1 heq =>
    obtain ⟨he, hne⟩ := matchTs_true_spec heq
    have hi1 : s1.i = s.i + 1 := by rw [he]
    have hlt : s.i < lastOf ts := is_at_end_false_lt hE hs hne
    have h1 := ih.hUnary s1 (by omega) (by omega)
    refine Adq_rebase (Adq_bindK 0 h1 ?_) (by omega) (by omega)
    intro a s2 hok
    rw [hok] at h1
    obtain ⟨h1a, h1b⟩ := h1
    exact ⟨by omega, h1b⟩
  next s1 heq =>
    rw [matchTs_false_spec heq]
    exact ih.hCallRule s hs (by omega)

theorem step_callRule {ts : List Token} {fuel : Nat} (ih : GoodAt ts fuel) :
    ∀ s : PS, s.i ≤ lastOf ts → 20 * (lastOf ts - s.i) + 2 ≤ fuel + 1 →
    Adq (lastOf ts) 1 s (callRule ts (fuel + 1) s) := by
  intro s hs hf
  rw [callRule]
  have h1 := ih.hPrimary s hs (by omega)
  refine Adq_rebase (Adq_bindK 0 h1 ?_) (by omega) (by omega)
  intro a s1 hok
  rw [hok] at h1
  obtain ⟨h1a, h1b⟩ := h1
  exact ih.hCallLoop a s1 h1b (by omega)

theorem step_callLoop {ts : List Token} (hE : EOFTerminated ts) {fuel : Nat}
    (ih : GoodAt ts fuel) :
    ∀ (e : Expr) (s : PS), s.i ≤ lastOf ts →
    20 * (lastOf ts - s.i) + 2 ≤ fuel + 1 →
    Adq (lastOf ts) 0 s (callLoop ts (fuel + 1) e s) := by
  intro e s hs hf
  rw [callLoop]
  simp only []
  split
  next s1 heq =>
    obtain ⟨he, hne⟩ := matchTs_true_spec heq
    have hi1 : s1.i = s.i + 1 := by rw [he]
    have hlt : s.i < lastOf ts := is_at_end_false_lt hE hs hne
    have h1 := ih.hFinishCall e s1 (by omega) (by omega)
    refine Adq_rebase (Adq_bindK 0 h1 ?_) (by omega) (by omega)
    intro e1 s2 hok
    rw [hok] at h1
    obtain ⟨h1a, h1b⟩ := h1
    split
    next s3 heq2 =>
      obtain ⟨he2, hne2⟩ := matchTs_true_spec heq2
      have hi3 : s3.i = s2.i + 1 := by rw [he2]
      have hlt2 := is_at_end_false_lt hE h1b hne2
      refine Adq_rebase (Adq_liftCK hE 0 (by omega) ?_) (by omega) (by omega)
      intro t s4 hc hi4 hlt3
      exact ih.hCallLoop (Expr.Get e1 t) s4 (by omega) (by omega)
    next s3 heq2 =>
      rw [matchTs_false_spec heq2]
      exact ⟨by omega, h1b⟩
  next s1 heq =>
    rw [matchTs_false_spec heq]
    split
    next s3 heq2 =>
      obtain ⟨he2, hne2⟩ := matchTs_true_spec heq2
      have hi3 : s3.i = s.i + 1 := by rw [he2]
      have hlt2 := is_at_end_false_lt hE hs hne2
      refine Adq_rebase (Adq_liftCK hE 0 (by omega) ?_) (by omega) (by omega)
      intro t s4 hc hi4 hlt3
      exact ih.hCallLoop (Expr.Get e t) s4 (by omega) (by omega)
    next s3 heq2 =>
      rw [matchTs_false_spec heq2]
      exact ⟨by omega, hs⟩

theorem step_argsLoop {ts : List Token} (hE : EOFTerminated ts) {fuel : Nat}
    (ih : GoodAt ts fuel) :
    ∀ (arguments : List Expr) (s : PS), s.i ≤ lastOf ts →
    20 * (lastOf ts - s.i) + 2 ≤ fuel + 1 →
    Adq (lastOf ts) 0 s (argsLoop ts (fuel + 1) arguments s) := by
  intro arguments s hs hf
  rw [argsLoop]
  split
  next s1 heq =>
    rw [matchTs_false_spec heq]
    exact ⟨by omega, hs⟩
  next s1 heq =>
    obtain ⟨he, hne⟩ := matchTs_true_spec heq
    have hi1 : s1.i = s.i + 1 := by rw [he]
    have hlt : s.i < lastOf ts := is_at_end_false_lt hE hs hne
    split
    · have hpe := parseError_i (Parser.peek ts s1)
        "cannot exceed 255 arguments" s1
      exact ⟨by omega, by omega⟩
    · have h1 := ih.hExpression s1 (by omega) (by omega)
      refine Adq_rebase (Adq_bindK 0 h1 ?_) (by omega) (by omega)
      intro a s2 hok
      rw [hok] at h1
      obtain ⟨h1a, h1b⟩ := h1
      exact ih.hArgsLoop (arguments ++ [a]) s2 h1b (by omega)

theorem step_finish_call {ts : List Token} (hE : EOFTerminated ts)
    {fuel : Nat} (ih : GoodAt ts fuel) :
    ∀ (callee : Expr) (s : PS), s.i ≤ lastOf ts →
    20 * (lastOf ts - s.i) + 13 ≤ fuel + 1 →
    Adq (lastOf ts) 1 s (finish_call ts (fuel + 1) callee s) := by
  intro callee s hs hf
  rw [finish_call]
  simp only []
  split
  · have h1 := ih.hExpression s hs (by omega)
    refine Adq_rebase (Adq_bindK 1 h1 ?_) (by omega) (by omega)
    intro a s1 hok
    rw [hok] at h1
    obtain ⟨h1a, h1b⟩ := h1
    have h2 := ih.hArgsLoop [a] s1 h1b (by omega)
    refine Adq_rebase (Adq_bindK 1 h2 ?_) (by omega) (by omega)
    intro args s2 hok2
    rw [hok2] at h2
    obtain ⟨h2a, h2b⟩ := h2
    refine Adq_rebase (Adq_liftCK hE 0 h2b ?_) (by omega) (by omega)
    intro paren s3 hc hi3 hlt
    exact ⟨by omega, by omega⟩
  · refine Adq_rebase (Adq_liftCK hE 0 hs ?_) (by omega) (by omega)
    intro paren s3 hc hi3 hlt
    exact ⟨by omega, by omega⟩

theorem step_primary {ts : List Token} (hE : EOFTerminated ts) {fuel : Nat}
    (ih : GoodAt ts fuel) :
    ∀ s : PS, s.i ≤ lastOf ts → 20 * (lastOf ts - s.i) + 1 ≤ fuel + 1 →
    Adq (lastOf ts) 1 s (primary ts (fuel + 1) s) := by
  intro s hs hf
  rw [primary]
  split
  next s1 heq =>
    obtain ⟨he, hne⟩ := matchTs_true_spec heq
    have hi1 : s1.i = s.i + 1 := by rw [he]
    have hlt := is_at_end_false_lt hE hs hne
    exact ⟨by omega, by omega⟩
  next s1 heq =>
    rw [matchTs_false_spec heq]
    split
    next s2 heq2 =>
      obtain ⟨he, hne⟩ := matchTs_true_spec heq2
      have hi1 : s2.i = s.i + 1 := by rw [he]
      have hlt := is_at_end_false_lt hE hs hne
      exact ⟨by omega, by omega⟩
    next s2 heq2 =>
      rw [matchTs_false_spec heq2]
      split
      next s3 heq3 =>
        obtain ⟨he, hne⟩ := matchTs_true_spec heq3
        have hi1 : s3.i = s.i + 1 := by rw [he]
        have hlt := is_at_end_false_lt hE hs hne
        exact ⟨by omega, by omega⟩
      next s3 heq3 =>
        rw [matchTs_false_spec heq3]
        split
        next s4 heq4 =>
          obtain ⟨he, hne⟩ := matchTs_true_spec heq4
          have hi1 : s4.i = s.i + 1 := by rw [he]
          have hlt := is_at_end_false_lt hE hs hne
          exact ⟨by omega, by omega⟩
        next s4 heq4 =>
          rw [matchTs_false_spec heq4]
          split
          next s5 heq5 =>
            obtain ⟨he, hne⟩ := matchTs_true_spec heq5
            have hi1 : s5.i = s.i + 1 := by rw [he]
            have hlt := is_at_end_false_lt hE hs hne
            show Adq (lastOf ts) 1 s
              (liftC (Parser.consume ts .DOT "expect '.' after 'super'" s5)
                fun _ s6 =>
                  liftC (Parser.consume ts .IDENTIFIER
                      "expect superclass method name" s6)
                    fun method s7 =>
                      PRes.ok (Expr.Super (Parser.previous ts s5) method) s7)
            refine Adq_rebase (Adq_liftCK hE 1 (by omega) ?_) (by omega)
              (by omega)
            intro t s6 hc hi6 hlt2
            refine Adq_rebase (Adq_liftCK hE 0 (by omega) ?_) (by omega)
              (by omega)
            intro t2 s7 hc2 hi7 hlt3
            exact ⟨by omega, by omega⟩
          next s5 heq5 =>
            rw [matchTs_false_spec heq5]
            split
            next s6 heq6 =>
              obtain ⟨he, hne⟩ := matchTs_true_spec heq6
              have hi1 : s6.i = s.i + 1 := by rw [he]
              have hlt := is_at_end_false_lt hE hs hne
              exact ⟨by omega, by omega⟩
            next s6 heq6 =>
              rw [matchTs_false_spec heq6]
              split
              next s7 heq7 =>
                obtain ⟨he, hne⟩ := matchTs_true_spec heq7
                have hi1 : s7.i = s.i + 1 := by rw [he]
                have hlt := is_at_end_false_lt hE hs hne
                exact ⟨by omega, by omega⟩
              next s7 heq7 =>
                rw [matchTs_false_spec heq7]
                split
                next s8 heq8 =>
                  obtain ⟨he, hne⟩ := matchTs_true_spec heq8
                  have hi1 : s8.i = s.i + 1 := by rw [he]
                  have hlt := is_at_end_false_lt hE hs hne
                  have h1 := ih.hExpression s8 (by omega) (by omega)
                  refine Adq_rebase (Adq_bindK 1 h1 ?_) (by omega) (by omega)
                  intro a s9 hok
                  rw [hok] at h1
                  obtain ⟨h1a, h1b⟩ := h1
                  refine Adq_rebase (Adq_liftCK hE 0 h1b ?_) (by omega)
                    (by omega)
                  intro t s10 hc hi10 hlt2
                  exact ⟨by omega, by omega⟩
                next s8 heq8 =>
                  rw [matchTs_false_spec heq8]
                  have hpe := parseError_i (Parser.peek ts s)
                    "expected expression" s
                  exact ⟨by omega, by omega⟩

theorem Adq_bindP_ok {α β : Type} {last lo : Nat} {s : PS} {r : PRes α}
    {f : α → PS → β} (h : Adq last lo s r) :
    Adq last lo s (bindP r fun a s1 => PRes.ok (f a s1) s1) := by
  cases r with
  | fuelOut => exact h.elim
  | raise s1 => exact h
  | ok a s1 =>
      obtain ⟨ha, hb⟩ := h
      exact ⟨ha, hb⟩

theorem matchTs_snd_bounds {ts : List Token} (hE : EOFTerminated ts)
    {tts : List TokenType} {s : PS} (hs : s.i ≤ lastOf ts) :
    s.i ≤ (Parser.matchTs ts tts s).2.i ∧
      (Parser.matchTs ts tts s).2.i ≤ lastOf ts := by
  cases hm : Parser.matchTs ts tts s with
  | mk b s1 =>
      cases b with
      | true =>
          obtain ⟨he, hne⟩ := matchTs_true_spec hm
          have hi1 : s1.i = s.i + 1 := by rw [he]
          have hlt := is_at_end_false_lt hE hs hne
          refine ⟨?_, ?_⟩ <;> show _ ≤ _ <;> simp only [] <;> omega
      | false =>
          rw [matchTs_false_spec hm]
          exact ⟨le_refl _, hs⟩

theorem Adq_ok {α : Type} {last lo : Nat} {s s1 : PS} {r : PRes α} {a : α}
    (h : Adq last lo s r) (he : r = PRes.ok a s1) :
    s.i + lo ≤ s1.i ∧ s1.i ≤ last := by
  rw [he] at h
  exact h

theorem step_expression_statement {ts : List Token} (hE : EOFTerminated ts)
    {fuel : Nat} (ih : GoodAt ts fuel) :
    ∀ s : PS, s.i ≤ lastOf ts → 20 * (lastOf ts - s.i) + 13 ≤ fuel + 1 →
    Adq (lastOf ts) 1 s (expression_statement ts (fuel + 1) s) := by
  intro s hs hf
  rw [expression_statement]
  have h1 := ih.hExpression s hs (by omega)
  refine Adq_rebase (Adq_bindK 0 h1 ?_) (by omega) (by omega)
  intro e s1 hok
  rw [hok] at h1
  obtain ⟨h1a, h1b⟩ := h1
  have mb : s1.i ≤ (Parser.matchTs ts [TokenType.SEMICOLON] s1).2.i ∧
      (Parser.matchTs ts [TokenType.SEMICOLON] s1).2.i ≤ lastOf ts :=
    matchTs_snd_bounds hE h1b
  exact ⟨by omega, mb.2⟩

theorem step_print_statement {ts : List Token} (hE : EOFTerminated ts)
    {fuel : Nat} (ih : GoodAt ts fuel) :
    ∀ s : PS, s.i ≤ lastOf ts → 20 * (lastOf ts - s.i) + 13 ≤ fuel + 1 →
    Adq (lastOf ts) 1 s (print_statement ts (fuel + 1) s) := by
  intro s hs hf
  rw [print_statement]
  have h1 := ih.hExpression s hs (by omega)
  refine Adq_rebase (Adq_bindK 1 h1 ?_) (by omega) (by omega)
  intro v s1 hok
  rw [hok] at h1
  obtain ⟨h1a, h1b⟩ := h1
  refine Adq_rebase (Adq_liftCK hE 0 h1b ?_) (by omega) (by omega)
  intro t s2 hc hi2 hlt
  exact ⟨by omega, by omega⟩

theorem step_return_statement {ts : List Token} (hE : EOFTerminated ts)
    {fuel : Nat} (ih : GoodAt ts fuel) :
    ∀ s : PS, s.i ≤ lastOf ts → 20 * (lastOf ts - s.i) + 13 ≤ fuel + 1 →
    Adq (lastOf ts) 1 s (return_statement ts (fuel + 1) s) := by
  intro s hs hf
  rw [return_statement]
  simp only []
  split
  · have h1 := ih.hExpression s hs (by omega)
    refine Adq_rebase (Adq_bindK 1 h1 ?_) (by omega) (by omega)
    intro v s1 hok
    rw [hok] at h1
    obtain ⟨h1a, h1b⟩ := h1
    refine Adq_rebase (Adq_liftCK hE 0 h1b ?_) (by omega) (by omega)
    intro t s2 hc hi2 hlt
    exact ⟨by omega, by omega⟩
  · refine Adq_rebase (Adq_liftCK hE 0 hs ?_) (by omega) (by omega)
    intro t s2 hc hi2 hlt
    exact ⟨by omega, by omega⟩

theorem step_while_statement {ts : List Token} (hE : EOFTerminated ts)
    {fuel : Nat} (ih : GoodAt ts fuel) :
    ∀ s : PS, s.i ≤ lastOf ts → 20 * (lastOf ts - s.i) + 13 ≤ fuel + 1 →
    Adq (lastOf ts) 1 s (while_statement ts (fuel + 1) s) := by
  intro s hs hf
  rw [while_statement]
  refine Adq_rebase (Adq_liftCK hE 0 hs ?_) (by omega) (by omega)
  intro t s1 hc hi1 hlt
  have h1 := ih.hExpression s1 (by omega) (by omega)
  refine Adq_rebase (Adq_bindK 0 h1 ?_) (by omega) (by omega)
  intro c s2 hok
  rw [hok] at h1
  obtain ⟨h1a, h1b⟩ := h1
  refine Adq_rebase (Adq_liftCK hE 0 h1b ?_) (by omega) (by omega)
  intro t2 s3 hc2 hi3 hlt2
  have h2 := ih.hStatement s3 (by omega) (by omega)
  exact Adq_rebase (Adq_bindP_ok h2) (by omega) (by omega)

theorem step_if_statement {ts : List Token} (hE : EOFTerminated ts)
    {fuel : Nat} (ih : GoodAt ts fuel) :
    ∀ s : PS, s.i ≤ lastOf ts → 20 * (lastOf ts - s.i) + 13 ≤ fuel + 1 →
    Adq (lastOf ts) 1 s (if_statement ts (fuel + 1) s) := by
  intro s hs hf
  rw [if_statement]
  refine Adq_rebase (Adq_liftCK hE 0 hs ?_) (by omega) (by omega)
  intro t s1 hc hi1 hlt
  have h1 := ih.hExpression s1 (by omega) (by omega)
  refine Adq_rebase (Adq_bindK 0 h1 ?_) (by omega) (by omega)
  intro c s2 hok
  rw [hok] at h1
  obtain ⟨h1a, h1b⟩ := h1
  refine Adq_rebase (Adq_liftCK hE 0 h1b ?_) (by omega) (by omega)
  intro t2 s3 hc2 hi3 hlt2
  have h2 := ih.hStatement s3 (by omega) (by omega)
  refine Adq_rebase (Adq_bindK 0 h2 ?_) (by omega) (by omega)
  intro thenb s4 hok2
  rw [hok2] at h2
  obtain ⟨h2a, h2b⟩ := h2
  split
  next s5 heq =>
    obtain ⟨he, hne⟩ := matchTs_true_spec heq
    have hi5 : s5.i = s4.i + 1 := by rw [he]
    have hlt3 := is_at_end_false_lt hE h2b hne
    have h3 := ih.hStatement s5 (by omega) (by omega)
    exact Adq_rebase (Adq_bindP_ok h3) (by omega) (by omega)
  next s5 heq =>
    rw [matchTs_false_spec heq]
    exact ⟨by omega, h2b⟩

theorem step_block {ts : List Token} (hE : EOFTerminated ts) {fuel : Nat}
    (ih : GoodAt ts fuel) :
    ∀ s : PS, s.i ≤ lastOf ts → 20 * (lastOf ts - s.i) + 17 ≤ fuel + 1 →
    Adq (lastOf ts) 1 s (block ts (fuel + 1) s) := by
  intro s hs hf
  rw [block]
  have h1 := ih.hBlockLoop [] s hs (by omega)
  refine Adq_rebase (Adq_bindK 1 h1 ?_) (by omega) (by omega)
  intro stmts s1 hok
  rw [hok] at h1
  obtain ⟨h1a, h1b⟩ := h1
  refine Adq_rebase (Adq_liftCK hE 0 h1b ?_) (by omega) (by omega)
  intro t s2 hc hi2 hlt
  exact ⟨by omega, by omega⟩

theorem step_blockLoop {ts : List Token} (hE : EOFTerminated ts) {fuel : Nat}
    (ih : GoodAt ts fuel) :
    ∀ (acc : List (Option Stmt)) (s : PS), s.i ≤ lastOf ts →
    20 * (lastOf ts - s.i) + 16 ≤ fuel + 1 →
    Adq (lastOf ts) 0 s (blockLoop ts (fuel + 1) acc s) := by
  intro acc s hs hf
  rw [blockLoop]
  split
  · next h =>
      have hne : Parser.is_at_end ts s = false := by
        cases hend : Parser.is_at_end ts s
        · rfl
        · rw [hend] at h
          simp at h
      have hlt := is_at_end_false_lt hE hs hne
      have hD := ih.hDeclaration s hs (by omega)
      cases hd : declaration ts fuel s with
      | fuelOut => rw [hd] at hD; exact hD.elim
      | raise s1 => rw [hd] at hD; exact hD.elim
      | ok d s1 =>
          rw [hd] at hD
          obtain ⟨hDa, hDb, hDc⟩ := hD
          show Adq (lastOf ts) 0 s (blockLoop ts fuel (acc ++ [d]) s1)
          have hfu : 20 * (lastOf ts - s1.i) + 16 ≤ fuel := by
            rcases hDc with h' | h' <;> omega
          exact Adq_rebase (ih.hBlockLoop (acc ++ [d]) s1 hDb hfu)
            (by omega) (by omega)
  · exact ⟨by omega, hs⟩

theorem step_paramsLoop {ts : List Token} (hE : EOFTerminated ts)
    {fuel : Nat} (ih : GoodAt ts fuel) :
    ∀ (params : List Token) (s : PS), s.i ≤ lastOf ts →
    20 * (lastOf ts - s.i) + 2 ≤ fuel + 1 →
    Adq (lastOf ts) 0 s (paramsLoop ts (fuel + 1) params s) := by
  intro params s hs hf
  rw [paramsLoop]
  split
  next s1 heq =>
    rw [matchTs_false_spec heq]
    exact ⟨by omega, hs⟩
  next s1 heq =>
    obtain ⟨he, hne⟩ := matchTs_true_spec heq
    have hi1 : s1.i = s.i + 1 := by rw [he]
    have hlt := is_at_end_false_lt hE hs hne
    split
    · have hpe := parseError_i (Parser.peek ts s1)
        "cannot exceed 255 parameters" s1
      exact ⟨by omega, by omega⟩
    · refine Adq_rebase (Adq_liftCK hE 0 (by omega) ?_) (by omega) (by omega)
      intro p s2 hc hi2 hlt2
      exact ih.hParamsLoop (params ++ [p]) s2 (by omega) (by omega)

theorem step_var_declaration {ts : List Token} (hE : EOFTerminated ts)
    {fuel : Nat} (ih : GoodAt ts fuel) :
    ∀ s : PS, s.i ≤ lastOf ts → 20 * (lastOf ts - s.i) + 3 ≤ fuel + 1 →
    Adq (lastOf ts) 1 s (var_declaration ts (fuel + 1) s) := by
  intro s hs hf
  rw [var_declaration]
  have h1 := ih.hVarLoop [] s hs (by omega)
  refine Adq_rebase (Adq_bindK 0 h1 ?_) (by omega) (by omega)
  intro vars s1 hok
  rw [hok] at h1
  obtain ⟨h1a, h1b⟩ := h1
  refine Adq_rebase (Adq_liftCK hE 0 h1b ?_) (by omega) (by omega)
  intro t s2 hc hi2 hlt
  exact ⟨by omega, by omega⟩

theorem step_varLoop {ts : List Token} (hE : EOFTerminated ts) {fuel : Nat}
    (ih : GoodAt ts fuel) :
    ∀ (vars : List (Token × Option Expr)) (s : PS), s.i ≤ lastOf ts →
    20 * (lastOf ts - s.i) + 2 ≤ fuel + 1 →
    Adq (lastOf ts) 1 s (varLoop ts (fuel + 1) vars s) := by
  intro vars s hs hf
  rw [varLoop]
  refine Adq_rebase (Adq_liftCK hE 0 hs ?_) (by omega) (by omega)
  intro name s1 hc hi1 hlt
  cases hm2 : Parser.matchTs ts [.EQUAL] s1 with
  | mk b s2 =>
      cases b with
      | true =>
          obtain ⟨he2, hne2⟩ := matchTs_true_spec hm2
          have hi2 : s2.i = s1.i + 1 := by rw [he2]
          have hlt2 : s1.i < lastOf ts :=
            is_at_end_false_lt hE (by omega) hne2
          have h1 := ih.hConditional s2 (by omega) (by omega)
          have hInner : Adq (lastOf ts) 1 s2
              (bindP (conditional ts fuel s2) fun e s3 => PRes.ok (some e) s3) :=
            Adq_bindP_ok h1
          refine Adq_rebase (Adq_bindK 0 hInner ?_) (by omega) (by omega)
          intro init s3 hok
          obtain ⟨hIa, hIb⟩ := Adq_ok hInner hok
          split
          · have hpe := parseError_i name
              "reuse of same variable in declaration" s3
            exact ⟨by omega, by omega⟩
          · split
            next s4 heq4 =>
              obtain ⟨he4, hne4⟩ := matchTs_true_spec heq4
              have hi4 : s4.i = s3.i + 1 := by rw [he4]
              have hlt4 := is_at_end_false_lt hE hIb hne4
              exact Adq_rebase
                (ih.hVarLoop (vars ++ [(name, init)]) s4 (by omega) (by omega))
                (by omega) (by omega)
            next s4 heq4 =>
              rw [matchTs_false_spec heq4]
              exact ⟨by omega, hIb⟩
      | false =>
          have he2 := matchTs_false_spec hm2
          show Adq (lastOf ts) 0 s1
            (bindP (PRes.ok none s2) fun init s3 =>
              if vars.any (fun p => p.1.lexeme == name.lexeme) then
                PRes.raise
                  (parseError name "reuse of same variable in declaration" s3)
              else
                match Parser.matchTs ts [.COMMA] s3 with
                | (true, s4) => varLoop ts fuel (vars ++ [(name, init)]) s4
                | (false, s4) => PRes.ok (vars ++ [(name, init)]) s4)
          show Adq (lastOf ts) 0 s1
            (if vars.any (fun p => p.1.lexeme == name.lexeme) then
               PRes.raise
                 (parseError name "reuse of same variable in declaration" s2)
             else
               match Parser.matchTs ts [.COMMA] s2 with
               | (true, s4) => varLoop ts fuel (vars ++ [(name, none)]) s4
               | (false, s4) => PRes.ok (vars ++ [(name, none)]) s4)
          rw [he2]
          split
          · have hpe := parseError_i name
              "reuse of same variable in declaration" s1
            exact ⟨by omega, by omega⟩
          · split
            next s4 heq4 =>
              obtain ⟨he4, hne4⟩ := matchTs_true_spec heq4
              have hi4 : s4.i = s1.i + 1 := by rw [he4]
              have hlt4 : s1.i < lastOf ts :=
                is_at_end_false_lt hE (by omega) hne4
              exact Adq_rebase
                (ih.hVarLoop (vars ++ [(name, none)]) s4 (by omega) (by omega))
                (by omega) (by omega)
            next s4 heq4 =>
              rw [matchTs_false_spec heq4]
              exact ⟨by omega, by omega⟩

theorem step_for_statement {ts : List Token} (hE : EOFTerminated ts)
    {fuel : Nat} (ih : GoodAt ts fuel) :
    ∀ s : PS, s.i ≤ lastOf ts → 20 * (lastOf ts - s.i) + 13 ≤ fuel + 1 →
    Adq (lastOf ts) 1 s (for_statement ts (fuel + 1) s) := by
  intro s hs hf
  have hAfterInc : ∀ (g : Stmt → Stmt) (s7 : PS), s7.i ≤ lastOf ts →
      20 * (lastOf ts - s7.i) + 15 ≤ fuel →
      Adq (lastOf ts) 0 s7
        (liftC (Parser.consume ts .RIGHT_PAREN
            "expect ')' after for clauses" s7) fun _ s8 =>
          bindP (statement ts fuel s8) fun body s9 =>
            PRes.ok (g body) s9) := by
    intro g s7 h7 hf7
    refine Adq_rebase (Adq_liftCK hE 0 h7 ?_) (by omega) (by omega)
    intro t s8 hc hi8 hlt8
    exact Adq_rebase (Adq_bindP_ok (ih.hStatement s8 (by omega) (by omega)))
      (by omega) (by omega)
  have hAfterCond : ∀ (g1 : Expr → Stmt → Stmt) (g2 : Stmt → Stmt) (s5 : PS),
      s5.i ≤ lastOf ts → 20 * (lastOf ts - s5.i) + 17 ≤ fuel →
      Adq (lastOf ts) 0 s5
        (liftC (Parser.consume ts .SEMICOLON
            "expect ';' after loop condition" s5) fun _ s6 =>
          if !Parser.check ts .RIGHT_PAREN s6 then
            bindP (expression ts fuel s6) fun inc s7 =>
              liftC (Parser.consume ts .RIGHT_PAREN
                  "expect ')' after for clauses" s7) fun _ s8 =>
                bindP (statement ts fuel s8) fun body s9 =>
                  PRes.ok (g1 inc body) s9
          else
            liftC (Parser.consume ts .RIGHT_PAREN
                "expect ')' after for clauses" s6) fun _ s8 =>
              bindP (statement ts fuel s8) fun body s9 =>
                PRes.ok (g2 body) s9) := by
    intro g1 g2 s5 h5 hf5
    refine Adq_rebase (Adq_liftCK hE 0 h5 ?_) (by omega) (by omega)
    intro t s6 hc hi6 hlt6
    split
    · have h1 := ih.hExpression s6 (by omega) (by omega)
      refine Adq_rebase (Adq_bindK 0 h1 ?_) (by omega) (by omega)
      intro inc s7 hok
      obtain ⟨h1a, h1b⟩ := Adq_ok h1 hok
      exact hAfterInc (fun body => g1 inc body) s7 h1b (by omega)
    · exact hAfterInc g2 s6 (by omega) (by omega)
  have hAfterInit : ∀ (g11 : Expr → Expr → Stmt → Stmt)
      (g12 : Expr → Stmt → Stmt) (g21 : Expr → Stmt → Stmt)
      (g22 : Stmt → Stmt) (s4 : PS),
      s4.i ≤ lastOf ts → 20 * (lastOf ts - s4.i) + 18 ≤ fuel →
      Adq (lastOf ts) 0 s4
        (if !Parser.check ts .SEMICOLON s4 then
          bindP (expression ts fuel s4) fun c s5 =>
            liftC (Parser.consume ts .SEMICOLON
                "expect ';' after loop condition" s5) fun _ s6 =>
              if !Parser.check ts .RIGHT_PAREN s6 then
                bindP (expression ts fuel s6) fun inc s7 =>
                  liftC (Parser.consume ts .RIGHT_PAREN
                      "expect ')' after for clauses" s7) fun _ s8 =>
                    bindP (statement ts fuel s8) fun body s9 =>
                      PRes.ok (g11 c inc body) s9
              else
                liftC (Parser.consume ts .RIGHT_PAREN
                    "expect ')' after for clauses" s6) fun _ s8 =>
                  bindP (statement ts fuel s8) fun body s9 =>
                    PRes.ok (g12 c body) s9
        else
          liftC (Parser.consume ts .SEMICOLON
              "expect ';' after loop condition" s4) fun _ s6 =>
            if !Parser.check ts .RIGHT_PAREN s6 then
              bindP (expression ts fuel s6) fun inc s7 =>
                liftC (Parser.consume ts .RIGHT_PAREN
                    "expect ')' after for clauses" s7) fun _ s8 =>
                  bindP (statement ts fuel s8) fun body s9 =>
                    PRes.ok (g21 inc body) s9
            else
              liftC (Parser.consume ts .RIGHT_PAREN
                  "expect ')' after for clauses" s6) fun _ s8 =>
                bindP (statement ts fuel s8) fun body s9 =>
                  PRes.ok (g22 body) s9) := by
    intro g11 g12 g21 g22 s4 h4 hf4
    split
    · have h1 := ih.hExpression s4 h4 (by omega)
      refine Adq_rebase (Adq_bindK 0 h1 ?_) (by omega) (by omega)
      intro c s5 hok
      obtain ⟨h1a, h1b⟩ := Adq_ok h1 hok
      exact hAfterCond (fun inc body => g11 c inc body)
        (fun body => g12 c body) s5 h1b (by omega)
    · exact hAfterCond g21 g22 s4 h4 (by omega)
  rw [for_statement]
  simp only []
  refine Adq_rebase (Adq_liftCK hE 0 hs ?_) (by omega) (by omega)
  intro t s1 hc hi1 hlt
  split
  next s2 heq =>
    obtain ⟨he, hne⟩ := matchTs_true_spec heq
    have hi2 : s2.i = s1.i + 1 := by rw [he]
    have hlt2 : s1.i < lastOf ts := is_at_end_false_lt hE (by omega) hne
    exact Adq_rebase (hAfterInit _ _ _ _ s2 (by omega) (by omega))
      (by omega) (by omega)
  next s2 heq =>
    rw [matchTs_false_spec heq]
    split
    next s3 heq2 =>
      obtain ⟨he3, hne3⟩ := matchTs_true_spec heq2
      have hi3 : s3.i = s1.i + 1 := by rw [he3]
      have hlt3 : s1.i < lastOf ts := is_at_end_false_lt hE (by omega) hne3
      have hV := ih.hVarDeclaration s3 (by omega) (by omega)
      refine Adq_rebase (Adq_bindK 0 hV ?_) (by omega) (by omega)
      intro d s4 hok
      obtain ⟨hVa, hVb⟩ := Adq_ok hV hok
      exact hAfterInit _ _ _ _ s4 hVb (by omega)
    next s3 heq2 =>
      rw [matchTs_false_spec heq2]
      have hES := ih.hExpressionStatement s1 (by omega) (by omega)
      refine Adq_rebase (Adq_bindK 0 hES ?_) (by omega) (by omega)
      intro d s4 hok
      obtain ⟨hEa, hEb⟩ := Adq_ok hES hok
      exact hAfterInit _ _ _ _ s4 hEb (by omega)

theorem step_statement {ts : List Token} (hE : EOFTerminated ts) {fuel : Nat}
    (ih : GoodAt ts fuel) :
    ∀ s : PS, s.i ≤ lastOf ts → 20 * (lastOf ts - s.i) + 14 ≤ fuel + 1 →
    Adq (lastOf ts) 1 s (statement ts (fuel + 1) s) := by
  intro s hs hf
  rw [statement]
  split
  next s1 heq =>
    obtain ⟨he, hne⟩ := matchTs_true_spec heq
    have hi1 : s1.i = s.i + 1 := by rw [he]
    have hlt := is_at_end_false_lt hE hs hne
    exact Adq_rebase (ih.hForStatement s1 (by omega) (by omega))
      (by omega) (by omega)
  next s1 heq =>
    rw [matchTs_false_spec heq]
    split
    next s2 heq2 =>
      obtain ⟨he, hne⟩ := matchTs_true_spec heq2
      have hi2 : s2.i = s.i + 1 := by rw [he]
      have hlt := is_at_end_false_lt hE hs hne
      exact Adq_rebase (ih.hIfStatement s2 (by omega) (by omega))
        (by omega) (by omega)
    next s2 heq2 =>
      rw [matchTs_false_spec heq2]
      split
      next s3 heq3 =>
        obtain ⟨he, hne⟩ := matchTs_true_spec heq3
        have hi3 : s3.i = s.i + 1 := by rw [he]
        have hlt := is_at_end_false_lt hE hs hne
        exact Adq_rebase (ih.hPrintStatement s3 (by omega) (by omega))
          (by omega) (by omega)
      next s3 heq3 =>
        rw [matchTs_false_spec heq3]
        split
        next s4 heq4 =>
          obtain ⟨he, hne⟩ := matchTs_true_spec heq4
          have hi4 : s4.i = s.i + 1 := by rw [he]
          have hlt := is_at_end_false_lt hE hs hne
          exact Adq_rebase (ih.hReturnStatement s4 (by omega) (by omega))
            (by omega) (by omega)
        next s4 heq4 =>
          rw [matchTs_false_spec heq4]
          split
          next s5 heq5 =>
            obtain ⟨he, hne⟩ := matchTs_true_spec heq5
            have hi5 : s5.i = s.i + 1 := by rw [he]
            have hlt := is_at_end_false_lt hE hs hne
            exact Adq_rebase (ih.hWhileStatement s5 (by omega) (by omega))
              (by omega) (by omega)
          next s5 heq5 =>
            rw [matchTs_false_spec heq5]
            split
            next s6 heq6 =>
              obtain ⟨he, hne⟩ := matchTs_true_spec heq6
              have hi6 : s6.i = s.i + 1 := by rw [he]
              have hlt := is_at_end_false_lt hE hs hne
              have hB := ih.hBlock s6 (by omega) (by omega)
              exact Adq_rebase (Adq_bindP_ok hB) (by omega) (by omega)
            next s6 heq6 =>
              rw [matchTs_false_spec heq6]
              exact ih.hExpressionStatement s (by omega) (by omega)

theorem step_function_declaration {ts : List Token} (hE : EOFTerminated ts)
    {fuel : Nat} (ih : GoodAt ts fuel) :
    ∀ (kind : String) (s : PS), s.i ≤ lastOf ts →
    20 * (lastOf ts - s.i) + 5 ≤ fuel + 1 →
    Adq (lastOf ts) 1 s (function_declaration ts kind (fuel + 1) s) := by
  intro kind s hs hf
  rw [function_declaration]
  simp only []
  refine Adq_rebase (Adq_liftCK hE 0 hs ?_) (by omega) (by omega)
  intro name s1 hc1 hi1 hlt1
  refine Adq_rebase (Adq_liftCK hE 0 (by omega) ?_) (by omega) (by omega)
  intro t2 s2 hc2 hi2 hlt2
  have hRest : ∀ (params : List Token) (s4 : PS), s4.i ≤ lastOf ts →
      20 * (lastOf ts - s4.i) ≤ fuel →
      Adq (lastOf ts) 0 s4
        (liftC (Parser.consume ts .RIGHT_PAREN
            "expect ')' after parameters" s4) fun _ s5 =>
          liftC (Parser.consume ts .LEFT_BRACE
              ("expect '\x7b' before " ++ kind ++ " body") s5) fun _ s6 =>
            bindP (block ts fuel s6) fun body s7 =>
              PRes.ok (name, params, body) s7) := by
    intro params s4 h4 hf4
    refine Adq_rebase (Adq_liftCK hE 0 h4 ?_) (by omega) (by omega)
    intro t5 s5 hc5 hi5 hlt5
    refine Adq_rebase (Adq_liftCK hE 0 (by omega) ?_) (by omega) (by omega)
    intro t6 s6 hc6 hi6 hlt6
    exact Adq_rebase (Adq_bindP_ok (ih.hBlock s6 (by omega) (by omega)))
      (by omega) (by omega)
  split
  · refine Adq_rebase (Adq_liftCK hE 0 (by omega) ?_) (by omega) (by omega)
    intro p s3 hc3 hi3 hlt3
    have hP := ih.hParamsLoop [p] s3 (by omega) (by omega)
    refine Adq_rebase (Adq_bindK 0 hP ?_) (by omega) (by omega)
    intro params s4 hok
    obtain ⟨hPa, hPb⟩ := Adq_ok hP hok
    exact hRest params s4 hPb (by omega)
  · exact hRest [] s2 (by omega) (by omega)

theorem step_methodsLoop {ts : List Token} (hE : EOFTerminated ts)
    {fuel : Nat} (ih : GoodAt ts fuel) :
    ∀ (acc : List (Token × List Token × List (Option Stmt))) (s : PS),
    s.i ≤ lastOf ts → 20 * (lastOf ts - s.i) + 6 ≤ fuel + 1 →
    Adq (lastOf ts) 0 s (methodsLoop ts (fuel + 1) acc s) := by
  intro acc s hs hf
  rw [methodsLoop]
  split
  · next h =>
      have hne : Parser.is_at_end ts s = false := by
        cases hend : Parser.is_at_end ts s
        · rfl
        · rw [hend] at h
          simp at h
      have hlt := is_at_end_false_lt hE hs hne
      have hF := ih.hFunctionDeclaration "method" s hs (by omega)
      refine Adq_rebase (Adq_bindK 0 hF ?_) (by omega) (by omega)
      intro m s1 hok
      obtain ⟨hFa, hFb⟩ := Adq_ok hF hok
      exact ih.hMethodsLoop (acc ++ [m]) s1 hFb (by omega)
  · exact ⟨by omega, hs⟩

theorem step_class_declaration {ts : List Token} (hE : EOFTerminated ts)
    {fuel : Nat} (ih : GoodAt ts fuel) :
    ∀ s : PS, s.i ≤ lastOf ts → 20 * (lastOf ts - s.i) + 13 ≤ fuel + 1 →
    Adq (lastOf ts) 1 s (class_declaration ts (fuel + 1) s) := by
  intro s hs hf
  rw [class_declaration]
  simp only []
  refine Adq_rebase (Adq_liftCK hE 0 hs ?_) (by omega) (by omega)
  intro name s1 hc1 hi1 hlt1
  have hRest : ∀ (sup : Option Expr) (s2 : PS), s2.i ≤ lastOf ts →
      20 * (lastOf ts - s2.i) + 8 ≤ fuel →
      Adq (lastOf ts) 0 s2
        (liftC (Parser.consume ts .LEFT_BRACE
            "expect '\x7b' before class body" s2) fun _ s3 =>
          bindP (methodsLoop ts fuel [] s3) fun methods s4 =>
            liftC (Parser.consume ts .RIGHT_BRACE
                "expect '\x7d' after class body" s4) fun _ s5 =>
              PRes.ok (Stmt.Class name sup methods) s5) := by
    intro sup s2 h2 hf2
    refine Adq_rebase (Adq_liftCK hE 0 h2 ?_) (by omega) (by omega)
    intro t3 s3 hc3 hi3 hlt3
    have hM := ih.hMethodsLoop [] s3 (by omega) (by omega)
    refine Adq_rebase (Adq_bindK 0 hM ?_) (by omega) (by omega)
    intro methods s4 hok
    obtain ⟨hMa, hMb⟩ := Adq_ok hM hok
    refine Adq_rebase (Adq_liftCK hE 0 hMb ?_) (by omega) (by omega)
    intro t5 s5 hc5 hi5 hlt5
    exact ⟨by omega, by omega⟩
  split
  next s2 heq =>
    obtain ⟨he, hne⟩ := matchTs_true_spec heq
    have hi2 : s2.i = s1.i + 1 := by rw [he]
    have hlt2 : s1.i < lastOf ts := is_at_end_false_lt hE (by omega) hne
    refine Adq_rebase (Adq_liftCK hE 0 (by omega) ?_) (by omega) (by omega)
    intro t3 s3 hc3 hi3 hlt3
    exact hRest _ s3 (by omega) (by omega)
  next s2 heq =>
    rw [matchTs_false_spec heq]
    exact hRest none s1 (by omega) (by omega)

theorem step_syncLoop {ts : List Token} (hE : EOFTerminated ts) {fuel : Nat}
    (ih : GoodAt ts fuel) :
    ∀ s : PS, s.i ≤ lastOf ts → 20 * (lastOf ts - s.i) + 3 ≤ fuel + 1 →
    AdqN (lastOf ts) s (syncLoop ts (fuel + 1) s) := by
  intro s hs hf
  rw [syncLoop]
  split
  · exact ⟨Nat.le_refl _, hs⟩
  · next hend =>
      split
      · exact ⟨Nat.le_refl _, hs⟩
      · split
        all_goals try exact ⟨Nat.le_refl _, hs⟩
        have hne : Parser.is_at_end ts s = false := by
          cases h' : Parser.is_at_end ts s
          · rfl
          · exact absurd h' hend
        have hlt := is_at_end_false_lt hE hs hne
        have hi1 : (Parser.advanceP ts s).2.i = s.i + 1 := by
          rw [advanceP_not_end hne]
        have hrec := ih.hSyncLoop (Parser.advanceP ts s).2 (by omega) (by omega)
        cases hr : syncLoop ts fuel (Parser.advanceP ts s).2 with
        | fuelOut => rw [hr] at hrec; exact hrec.elim
        | raise s1 => rw [hr] at hrec; exact hrec.elim
        | ok u s1 =>
            rw [hr] at hrec
            obtain ⟨h1x, h2x⟩ := hrec
            exact ⟨by omega, h2x⟩

theorem step_synchronize {ts : List Token} (hE : EOFTerminated ts)
    {fuel : Nat} (ih : GoodAt ts fuel) :
    ∀ s : PS, s.i ≤ lastOf ts → 20 * (lastOf ts - s.i) + 4 ≤ fuel + 1 →
    AdqD (lastOf ts) s (synchronize ts (fuel + 1) s) := by
  intro s hs hf
  rw [synchronize]
  cases hend : Parser.is_at_end ts s with
  | true =>
      have heqL : s.i = lastOf ts := (is_at_end_iff hE hs).mp hend
      have harg : (Parser.advanceP ts s).2 = s := advanceP_at_end hend
      rw [harg]
      have hrec := ih.hSyncLoop s hs (by omega)
      cases hr : syncLoop ts fuel s with
      | fuelOut => rw [hr] at hrec; exact hrec.elim
      | raise s1 => rw [hr] at hrec; exact hrec.elim
      | ok u s1 =>
          rw [hr] at hrec
          obtain ⟨h1x, h2x⟩ := hrec
          exact ⟨h1x, h2x, Or.inr (by omega)⟩
  | false =>
      have hlt := is_at_end_false_lt hE hs hend
      have hi1 : (Parser.advanceP ts s).2.i = s.i + 1 := by
        rw [advanceP_not_end hend]
      have hrec := ih.hSyncLoop (Parser.advanceP ts s).2 (by omega) (by omega)
      cases hr : syncLoop ts fuel (Parser.advanceP ts s).2 with
      | fuelOut => rw [hr] at hrec; exact hrec.elim
      | raise s1 => rw [hr] at hrec; exact hrec.elim
      | ok u s1 =>
          rw [hr] at hrec
          obtain ⟨h1x, h2x⟩ := hrec
          exact ⟨by omega, h2x, Or.inl (by omega)⟩

theorem step_declaration {ts : List Token} (hE : EOFTerminated ts)
    {fuel : Nat} (ih : GoodAt ts fuel) :
    ∀ s : PS, s.i ≤ lastOf ts → 20 * (lastOf ts - s.i) + 15 ≤ fuel + 1 →
    AdqD (lastOf ts) s (declaration ts (fuel + 1) s) := by
  intro s hs hf
  rw [declaration]
  have hRaise : ∀ s1 : PS, s.i ≤ s1.i → s1.i ≤ lastOf ts →
      AdqD (lastOf ts) s
        (bindP (synchronize ts fuel s1) fun _ s2 =>
          PRes.ok (none : Option Stmt) s2) := by
    intro s1 h1 h2
    have hS := ih.hSynchronize s1 h2 (by omega)
    cases hsy : synchronize ts fuel s1 with
    | fuelOut => rw [hsy] at hS; exact hS.elim
    | raise s2 => rw [hsy] at hS; exact hS.elim
    | ok u s2 =>
        rw [hsy] at hS
        obtain ⟨hSa, hSb, hSc⟩ := hS
        show AdqD (lastOf ts) s (PRes.ok (none : Option Stmt) s2)
        refine ⟨by omega, hSb, ?_⟩
        rcases hSc with h' | h'
        · exact Or.inl (by omega)
        · exact Or.inr h'
  split
  next heq =>
    exfalso
    split at heq
    next s1 heqm =>
      obtain ⟨he, hne⟩ := matchTs_true_spec heqm
      have hi1 : s1.i = s.i + 1 := by rw [he]
      have hlt := is_at_end_false_lt hE hs hne
      have hr := ih.hClassDeclaration s1 (by omega) (by omega)
      rw [heq] at hr
      exact hr
    next s1 heqm =>
      rw [matchTs_false_spec heqm] at heq
      split at heq
      next s2 heqm2 =>
        obtain ⟨he, hne⟩ := matchTs_true_spec heqm2
        have hi2 : s2.i = s.i + 1 := by rw [he]
        have hlt := is_at_end_false_lt hE hs hne
        have hr := ih.hFunctionDeclaration "function" s2 (by omega) (by omega)
        cases hfd : function_declaration ts "function" fuel s2 with
        | fuelOut => rw [hfd] at hr; exact hr
        | raise s3 => rw [hfd] at heq; exact PRes.noConfusion heq
        | ok fd s3 =>
            rw [hfd] at heq
            have heq2 : PRes.ok (Stmt.Function fd.1 fd.2.1 fd.2.2) s3
                = (PRes.fuelOut : PRes Stmt) := heq
            exact PRes.noConfusion heq2
      next s2 heqm2 =>
        rw [matchTs_false_spec heqm2] at heq
        split at heq
        next s3 heqm3 =>
          obtain ⟨he, hne⟩ := matchTs_true_spec heqm3
          have hi3 : s3.i = s.i + 1 := by rw [he]
          have hlt := is_at_end_false_lt hE hs hne
          have hr := ih.hVarDeclaration s3 (by omega) (by omega)
          rw [heq] at hr
          exact hr
        next s3 heqm3 =>
          rw [matchTs_false_spec heqm3] at heq
          have hr := ih.hStatement s hs (by omega)
          rw [heq] at hr
          exact hr
  next s1 heq =>
    have hb : s.i ≤ s1.i ∧ s1.i ≤ lastOf ts := by
      split at heq
      next sc heqm =>
        obtain ⟨he, hne⟩ := matchTs_true_spec heqm
        have hic : sc.i = s.i + 1 := by rw [he]
        have hlt := is_at_end_false_lt hE hs hne
        have hr := ih.hClassDeclaration sc (by omega) (by omega)
        rw [heq] at hr
        obtain ⟨h1x, h2x⟩ := hr
        exact ⟨by omega, h2x⟩
      next sc heqm =>
        rw [matchTs_false_spec heqm] at heq
        split at heq
        next s2 heqm2 =>
          obtain ⟨he, hne⟩ := matchTs_true_spec heqm2
          have hi2 : s2.i = s.i + 1 := by rw [he]
          have hlt := is_at_end_false_lt hE hs hne
          have hr := ih.hFunctionDeclaration "function" s2 (by omega) (by omega)
          cases hfd : function_declaration ts "function" fuel s2 with
          | fuelOut => rw [hfd] at hr; exact hr.elim
          | raise s3 =>
              rw [hfd] at heq
              have heq2 : PRes.raise (α := Stmt) s3 = PRes.raise s1 := heq
              injection heq2 with he3
              rw [hfd] at hr
              obtain ⟨h1x, h2x⟩ := hr
              have he3i : s3.i = s1.i := by rw [he3]
              exact ⟨by omega, by omega⟩
          | ok fd s3 =>
              rw [hfd] at heq
              have heq2 : PRes.ok (Stmt.Function fd.1 fd.2.1 fd.2.2) s3
                  = PRes.raise s1 := heq
              exact PRes.noConfusion heq2
        next s2 heqm2 =>
          rw [matchTs_false_spec heqm2] at heq
          split at heq
          next s3 heqm3 =>
            obtain ⟨he, hne⟩ := matchTs_true_spec heqm3
            have hi3 : s3.i = s.i + 1 := by rw [he]
            have hlt := is_at_end_false_lt hE hs hne
            have hr := ih.hVarDeclaration s3 (by omega) (by omega)
            rw [heq] at hr
            obtain ⟨h1x, h2x⟩ := hr
            exact ⟨by omega, h2x⟩
          next s3 heqm3 =>
            rw [matchTs_false_spec heqm3] at heq
            have hr := ih.hStatement s hs (by omega)
            rw [heq] at hr
            obtain ⟨h1x, h2x⟩ := hr
            exact ⟨by omega, h2x⟩
    exact hRaise s1 hb.1 hb.2
  next stmt s1 heq =>
    have hb : s.i + 1 ≤ s1.i ∧ s1.i ≤ lastOf ts := by
      split at heq
      next sc heqm =>
        obtain ⟨he, hne⟩ := matchTs_true_spec heqm
        have hic : sc.i = s.i + 1 := by rw [he]
        have hlt := is_at_end_false_lt hE hs hne
        have hr := ih.hClassDeclaration sc (by omega) (by omega)
        rw [heq] at hr
        obtain ⟨h1x, h2x⟩ := hr
        exact ⟨by omega, h2x⟩
      next sc heqm =>
        rw [matchTs_false_spec heqm] at heq
        split at heq
        next s2 heqm2 =>
          obtain ⟨he, hne⟩ := matchTs_true_spec heqm2
          have hi2 : s2.i = s.i + 1 := by rw [he]
          have hlt := is_at_end_false_lt hE hs hne
          have hr := ih.hFunctionDeclaration "function" s2 (by omega) (by omega)
          cases hfd : function_declaration ts "function" fuel s2 with
          | fuelOut => rw [hfd] at hr; exact hr.elim
          | raise s3 =>
              rw [hfd] at heq
              have heq2 : PRes.raise (α := Stmt) s3 = PRes.ok stmt s1 := heq
              exact PRes.noConfusion heq2
          | ok fd s3 =>
              rw [hfd] at heq
              have heq2 : PRes.ok (Stmt.Function fd.1 fd.2.1 fd.2.2) s3
                  = PRes.ok stmt s1 := heq
              injection heq2 with hv he3
              rw [hfd] at hr
              obtain ⟨h1x, h2x⟩ := hr
              have he3i : s3.i = s1.i := by rw [he3]
              exact ⟨by omega, by omega⟩
        next s2 heqm2 =>
          rw [matchTs_false_spec heqm2] at heq
          split at heq
          next s3 heqm3 =>
            obtain ⟨he, hne⟩ := matchTs_true_spec heqm3
            have hi3 : s3.i = s.i + 1 := by rw [he]
            have hlt := is_at_end_false_lt hE hs hne
            have hr := ih.hVarDeclaration s3 (by omega) (by omega)
            rw [heq] at hr
            obtain ⟨h1x, h2x⟩ := hr
            exact ⟨by omega, h2x⟩
          next s3 heqm3 =>
            rw [matchTs_false_spec heqm3] at heq
            have hr := ih.hStatement s hs (by omega)
            rw [heq] at hr
            obtain ⟨h1x, h2x⟩ := hr
            exact ⟨by omega, h2x⟩
    exact ⟨by omega, hb.2, Or.inl (by omega)⟩

theorem step_parseLoop {ts : List Token} (hE : EOFTerminated ts)
    {fuel : Nat} (ih : GoodAt ts fuel) :
    ∀ (acc : List (Option Stmt)) (s : PS), s.i ≤ lastOf ts →
    20 * (lastOf ts - s.i) + 16 ≤ fuel + 1 →
    AdqParse (lastOf ts) (parseLoop ts (fuel + 1) acc s) := by
  intro acc s hs hf
  rw [parseLoop]
  split
  · next hend => exact (is_at_end_iff hE hs).mp hend
  · next hend =>
      have hne : Parser.is_at_end ts s = false := by
        cases h' : Parser.is_at_end ts s
        · rfl
        · exact absurd h' hend
      have hlt := is_at_end_false_lt hE hs hne
      have hD := ih.hDeclaration s hs (by omega)
      cases hd : declaration ts fuel s with
      | fuelOut => rw [hd] at hD; exact hD.elim
      | raise s1 => rw [hd] at hD; exact hD.elim
      | ok d s1 =>
          rw [hd] at hD
          obtain ⟨hDa, hDb, hDc⟩ := hD
          show AdqParse (lastOf ts) (parseLoop ts fuel (acc ++ [d]) s1)
          have hfu : 20 * (lastOf ts - s1.i) + 16 ≤ fuel := by
            rcases hDc with h' | h' <;> omega
          exact ih.hParseLoop (acc ++ [d]) s1 hDb hfu

theorem goodAt_zero (ts : List Token) : GoodAt ts 0 := by
  constructor <;> (intros; exfalso; omega)

theorem goodAt_all {ts : List Token} (hE : EOFTerminated ts) :
    ∀ fuel : Nat, GoodAt ts fuel := by
  intro fuel
  induction fuel with
  | zero => exact goodAt_zero ts
  | succ fuel ih =>
      exact {
        hPrimary := step_primary hE ih
        hCallLoop := step_callLoop hE ih
        hCallRule := step_callRule ih
        hUnary := step_unary hE ih
        hFactorLoop := step_factorLoop hE ih
        hFactor := step_factor ih
        hTermLoop := step_termLoop hE ih
        hTerm := step_term ih
        hCompLoop := step_compLoop hE ih
        hComparison := step_comparison ih
        hEqLoop := step_eqLoop hE ih
        hEquality := step_equality ih
        hAndLoop := step_andLoop hE ih
        hLogicalAnd := step_logical_and ih
        hOrLoop := step_orLoop hE ih
        hLogicalOr := step_logical_or ih
        hConditional := step_conditional hE ih
        hCommaLoop := step_commaLoop hE ih
        hComma := step_comma ih
        hExpression := step_expression ih
        hArgsLoop := step_argsLoop hE ih
        hFinishCall := step_finish_call hE ih
        hExpressionStatement := step_expression_statement hE ih
        hPrintStatement := step_print_statement hE ih
        hReturnStatement := step_return_statement hE ih
        hParamsLoop := step_paramsLoop hE ih
        hVarLoop := step_varLoop hE ih
        hVarDeclaration := step_var_declaration hE ih
        hForStatement := step_for_statement hE ih
        hIfStatement := step_if_statement hE ih
        hWhileStatement := step_while_statement hE ih
        hMethodsLoop := step_methodsLoop hE ih
        hFunctionDeclaration := step_function_declaration hE ih
        hClassDeclaration := step_class_declaration hE ih
        hBlockLoop := step_blockLoop hE ih
        hBlock := step_block hE ih
        hStatement := step_statement hE ih
        hDeclaration := step_declaration hE ih
        hSyncLoop := step_syncLoop hE ih
        hSynchronize := step_synchronize hE ih
        hParseLoop := step_parseLoop hE ih }

/-- C9: for every finite EOF-terminated token list -- including lists with
syntax errors, which raise, run `synchronize`, and continue -- the parser
terminates: with fuel `parseFuel ts` (20 steps per token plus slack),
`parse` returns a statement list without running out of fuel, and its
final state stands exactly on the `EOF` token, so every token up to the
`EOF` was consumed and the recursion cannot loop forever. -/
theorem c9_parse_terminates (ts : List Token) (hE : EOFTerminated ts) :
    ∃ (stmts : List (Option Stmt)) (s' : PS),
      parse ts (parseFuel ts) = .ok stmts s' ∧ s'.i = ts.length - 1 := by
  have hG := goodAt_all hE (parseFuel ts)
  have hP := hG.hParseLoop [] ⟨0, []⟩ (Nat.zero_le _)
    (by show 20 * (lastOf ts - 0) + 16 ≤ parseFuel ts
        unfold parseFuel lastOf
        omega)
  cases hpr : parseLoop ts (parseFuel ts) [] ⟨0, []⟩ with
  | fuelOut => rw [hpr] at hP; exact hP.elim
  | raise s1 => rw [hpr] at hP; exact hP.elim
  | ok stmts s1 =>
      rw [hpr] at hP
      exact ⟨stmts, s1, hpr, hP⟩

/-- Witness for C9 at a concrete input: the token list of `x = 1;` is
EOF-terminated (and indeed contains a syntax error for this parser), and
the theorem applies to it. -/
theorem c9_parse_terminates_witness :
    EOFTerminated c1_tokens ∧
      ∃ (stmts : List (Option Stmt)) (s' : PS),
        parse c1_tokens (parseFuel c1_tokens) = .ok stmts s' ∧
          s'.i = c1_tokens.length - 1 :=
  ⟨by decide, c9_parse_terminates c1_tokens (by decide)⟩

end Plox
